import Mathlib

/-!
Verification of `evesso` (`src/evesso/authorize.py`): OAuth2 authorization-code
flow with PKCE.

The Python source is shallowly embedded below.  Bytes are `Nat` values < 256 in
`List Nat`; Python `str` is Lean `String`; the module-level constant `STATE`
and the values produced by `secrets.token_bytes` are passed as explicit
parameters (they are the process's random inputs); the network transport
(`requests.post`) is an explicit function argument; raised exceptions are an
explicit error type.  The Python standard-library functions the source calls
(`base64.urlsafe_b64encode`, `hashlib.sha256`, `urllib.parse.urlencode`,
`urllib.parse.urlparse`, `urllib.parse.parse_qs`, `secrets.token_urlsafe`) are
embedded from their CPython semantics.
-/

namespace Evesso

/-! ## URL-safe base64 (Python `base64.urlsafe_b64encode`)

The URL-safe alphabet is `A–Z a–z 0–9 - _`; `=` (byte 61) pads the final
group.  Encoding maps each 3-byte group to 4 alphabet bytes. -/

/-- Byte value of the URL-safe base64 alphabet character with index `n`
(total function; callers only use `n < 64`). -/
def b64Char (n : Nat) : Nat :=
  if n < 26 then 65 + n
  else if n < 52 then 97 + (n - 26)
  else if n < 62 then 48 + (n - 52)
  else if n = 62 then 45
  else 95

/-- URL-safe base64 encoding of a byte list, producing the bytes of the
encoded form, `=` padding included (CPython `base64.urlsafe_b64encode`). -/
def b64urlEncodeBytes : List Nat → List Nat
  | [] => []
  | [a] => [b64Char (a / 4), b64Char (a % 4 * 16), 61, 61]
  | [a, b] => [b64Char (a / 4), b64Char (a % 4 * 16 + b / 16), b64Char (b % 16 * 4), 61]
  | a :: b :: c :: rest =>
    b64Char (a / 4) :: b64Char (a % 4 * 16 + b / 16) :: b64Char (b % 16 * 4 + c / 64) ::
      b64Char (c % 64) :: b64urlEncodeBytes rest

/-- Index of a URL-safe base64 alphabet byte, `none` off the alphabet. -/
def b64CharDecode (c : Nat) : Option Nat :=
  if 65 ≤ c ∧ c ≤ 90 then some (c - 65)
  else if 97 ≤ c ∧ c ≤ 122 then some (c - 97 + 26)
  else if 48 ≤ c ∧ c ≤ 57 then some (c - 48 + 52)
  else if c = 45 then some 62
  else if c = 95 then some 63
  else none

/-- URL-safe base64 decoding (the spec's `decode`): inverse of
`b64urlEncodeBytes` on correctly padded input, `none` otherwise. -/
def b64urlDecodeBytes : List Nat → Option (List Nat)
  | [] => some []
  | c1 :: c2 :: c3 :: c4 :: rest =>
    match b64CharDecode c1, b64CharDecode c2 with
    | some a, some b =>
      if c3 = 61 then
        if c4 = 61 ∧ rest = [] then some [a * 4 + b / 16] else none
      else
        match b64CharDecode c3 with
        | some c =>
          if c4 = 61 then
            if rest = [] then some [a * 4 + b / 16, b % 16 * 16 + c / 4] else none
          else
            match b64CharDecode c4 with
            | some d =>
              (b64urlDecodeBytes rest).map
                (fun tl => (a * 4 + b / 16) :: (b % 16 * 16 + c / 4) :: (c % 4 * 64 + d) :: tl)
            | none => none
        | none => none
    | _, _ => none
  | _ => none

/-! ## SHA-256 (Python `hashlib.sha256`), FIPS 180-4, on byte lists -/

/-- Right-rotation of a 32-bit word stored in a `Nat`. -/
def rotr32 (n x : Nat) : Nat := ((x >>> n) ||| (x <<< (32 - n))) % 4294967296

/-- SHA-256 message-schedule sigma-0. -/
def ssig0 (x : Nat) : Nat := rotr32 7 x ^^^ rotr32 18 x ^^^ (x >>> 3)

/-- SHA-256 message-schedule sigma-1. -/
def ssig1 (x : Nat) : Nat := rotr32 17 x ^^^ rotr32 19 x ^^^ (x >>> 10)

/-- SHA-256 compression Sigma-0. -/
def bsig0 (x : Nat) : Nat := rotr32 2 x ^^^ rotr32 13 x ^^^ rotr32 22 x

/-- SHA-256 compression Sigma-1. -/
def bsig1 (x : Nat) : Nat := rotr32 6 x ^^^ rotr32 11 x ^^^ rotr32 25 x

/-- The 64 SHA-256 round constants. -/
def sha256K : List Nat :=
  [1116352408, 1899447441, 3049323471, 3921009573, 961987163, 1508970993,
   2453635748, 2870763221, 3624381080, 310598401, 607225278, 1426881987,
   1925078388, 2162078206, 2614888103, 3248222580, 3835390401, 4022224774,
   264347078, 604807628, 770255983, 1249150122, 1555081692, 1996064986,
   2554220882, 2821834349, 2952996808, 3210313671, 3336571891, 3584528711,
   113926993, 338241895, 666307205, 773529912, 1294757372, 1396182291,
   1695183700, 1986661051, 2177026350, 2456956037, 2730485921, 2820302411,
   3259730800, 3345764771, 3516065817, 3600352804, 4094571909, 275423344,
   430227734, 506948616, 659060556, 883997877, 958139571, 1322822218,
   1537002063, 1747873779, 1955562222, 2024104815, 2227730452, 2361852424,
   2428436474, 2756734187, 3204031479, 3329325298]

/-- Working state of the SHA-256 compression function: 8 32-bit words. -/
abbrev Sha256State := Nat × Nat × Nat × Nat × Nat × Nat × Nat × Nat

/-- SHA-256 initial hash value. -/
def sha256H0 : Sha256State :=
  (1779033703, 3144134277, 1013904242, 2773480762, 1359893119, 2600822924, 528734635, 1541459225)

/-- One SHA-256 round: fold the round constant `k` and schedule word `w`
into the working state. -/
def sha256Round (s : Sha256State) (k : Nat) (w : Nat) : Sha256State :=
  match s with
  | (a, b, c, d, e, f, g, h) =>
    let ch := (e &&& f) ^^^ ((e ^^^ 4294967295) &&& g)
    let maj := (a &&& b) ^^^ (a &&& c) ^^^ (b &&& c)
    let t1 := (h + bsig1 e + ch + k + w) % 4294967296
    let t2 := (bsig0 a + maj) % 4294967296
    ((t1 + t2) % 4294967296, a, b, c, (d + t1) % 4294967296, e, f, g)

/-- Extend a 16-word message block to the 64-word schedule. -/
def sha256Schedule (ws : List Nat) : List Nat :=
  (List.range 48).foldl
    (fun w i =>
      w ++ [(ssig1 (w.getD (i + 14) 0) + w.getD (i + 9) 0 + ssig0 (w.getD (i + 1) 0)
              + w.getD i 0) % 4294967296])
    ws

/-- Process one 16-word block. -/
def sha256Block (s : Sha256State) (block : List Nat) : Sha256State :=
  match s with
  | (a0, b0, c0, d0, e0, f0, g0, h0) =>
    let w := sha256Schedule block
    match (List.zip sha256K w).foldl (fun s kw => sha256Round s kw.1 kw.2)
        (a0, b0, c0, d0, e0, f0, g0, h0) with
    | (a, b, c, d, e, f, g, h) =>
      ((a0 + a) % 4294967296, (b0 + b) % 4294967296, (c0 + c) % 4294967296,
       (d0 + d) % 4294967296, (e0 + e) % 4294967296, (f0 + f) % 4294967296,
       (g0 + g) % 4294967296, (h0 + h) % 4294967296)

/-- SHA-256 padding: append `0x80`, zero bytes, and the 64-bit big-endian
bit length, reaching a multiple of 64 bytes. -/
def sha256Pad (msg : List Nat) : List Nat :=
  let len := msg.length
  let bl := len * 8
  msg ++ 128 :: List.replicate ((119 - len % 64) % 64) 0 ++
    [bl / 72057594037927936 % 256, bl / 281474976710656 % 256, bl / 1099511627776 % 256,
     bl / 4294967296 % 256, bl / 16777216 % 256, bl / 65536 % 256, bl / 256 % 256, bl % 256]

/-- Big-endian 32-bit words from bytes (input length a multiple of 4). -/
def bytesToWords : List Nat → List Nat
  | a :: b :: c :: d :: rest => (a * 16777216 + b * 65536 + c * 256 + d) :: bytesToWords rest
  | _ => []

/-- Split a word list into blocks of 16 (accumulator holds the current
block reversed). -/
def chunk16 : List Nat → List Nat → List (List Nat)
  | [], acc => if acc.isEmpty then [] else [acc.reverse]
  | w :: ws, acc =>
    if acc.length = 15 then (w :: acc).reverse :: chunk16 ws [] else chunk16 ws (w :: acc)

/-- Big-endian bytes of a 32-bit word. -/
def wordToBytes (w : Nat) : List Nat :=
  [w / 16777216 % 256, w / 65536 % 256, w / 256 % 256, w % 256]

/-- SHA-256 digest (32 bytes) of a byte list (CPython
`hashlib.sha256(msg).digest()`). -/
def sha256 (msg : List Nat) : List Nat :=
  match (chunk16 (bytesToWords (sha256Pad msg)) []).foldl sha256Block sha256H0 with
  | (a, b, c, d, e, f, g, h) =>
    wordToBytes a ++ wordToBytes b ++ wordToBytes c ++ wordToBytes d ++
      wordToBytes e ++ wordToBytes f ++ wordToBytes g ++ wordToBytes h

/-! ## UTF-8 (Python `str.encode('utf-8')` / `bytes.decode('utf-8', errors='replace')`) -/

/-- UTF-8 encoding of one Unicode scalar value. -/
def utf8EncodeChar (c : Char) : List Nat :=
  let n := c.toNat
  if n < 128 then [n]
  else if n < 2048 then [192 + n / 64, 128 + n % 64]
  else if n < 65536 then [224 + n / 4096, 128 + n / 64 % 64, 128 + n % 64]
  else [240 + n / 262144, 128 + n / 4096 % 64, 128 + n / 64 % 64, 128 + n % 64]

/-- UTF-8 bytes of a string (Python `s.encode('utf-8')`). -/
def utf8Encode (s : String) : List Nat := s.data.flatMap utf8EncodeChar

/-- Decoder action of a single byte taken as the start of a sequence:
either finished output (an ASCII character, or U+FFFD for a byte that can
start nothing) or a pending multi-byte state `(lo, hi, need, acc)` — the
next byte must lie in `lo..hi` (this excludes overlong encodings,
surrogates and values above U+10FFFF, exactly the bounds of RFC 3629),
`need` continuation bytes are still missing, `acc` holds the high bits. -/
def utf8Lead (b : Nat) : List Char ⊕ (Nat × Nat × Nat × Nat) :=
  if b < 128 then .inl [Char.ofNat b]
  else if 194 ≤ b ∧ b ≤ 223 then .inr (128, 191, 1, b - 192)
  else if b = 224 then .inr (160, 191, 2, 0)
  else if 225 ≤ b ∧ b ≤ 236 then .inr (128, 191, 2, b - 224)
  else if b = 237 then .inr (128, 159, 2, 13)
  else if 238 ≤ b ∧ b ≤ 239 then .inr (128, 191, 2, b - 224)
  else if b = 240 then .inr (144, 191, 3, 0)
  else if 241 ≤ b ∧ b ≤ 243 then .inr (128, 191, 3, b - 240)
  else if b = 244 then .inr (128, 143, 3, 4)
  else .inl ['�']

/-- Byte-at-a-time total UTF-8 decoder with U+FFFD replacement on
malformed input (Python `bytes.decode('utf-8', errors='replace')`): an
invalid continuation byte ends the pending sequence with one U+FFFD and
is reprocessed as a fresh start, matching CPython's maximal-subpart
rule. -/
def utf8DecodeAux : List Nat → Option (Nat × Nat × Nat × Nat) → List Char
  | [], st => match st with | none => [] | some _ => ['�']
  | b :: rest, st =>
    match st with
    | none =>
      match utf8Lead b with
      | .inl cs => cs ++ utf8DecodeAux rest none
      | .inr p => utf8DecodeAux rest (some p)
    | some (lo, hi, need, acc) =>
      if lo ≤ b ∧ b ≤ hi then
        if need = 1 then Char.ofNat (acc * 64 + (b - 128)) :: utf8DecodeAux rest none
        else utf8DecodeAux rest (some (128, 191, need - 1, acc * 64 + (b - 128)))
      else
        '�' ::
          (match utf8Lead b with
           | .inl cs => cs ++ utf8DecodeAux rest none
           | .inr p => utf8DecodeAux rest (some p))

/-- UTF-8 decoding with replacement, from the initial state. -/
def utf8DecodeReplace (bs : List Nat) : List Char := utf8DecodeAux bs none

/-! ## Percent-encoding (CPython `urllib.parse.quote_plus` / `unquote_plus`) -/

/-- Bytes `urllib.parse.quote` never escapes: ASCII alphanumerics and
`_ . - ~`. -/
def alwaysSafe (b : Nat) : Bool :=
  if (65 ≤ b ∧ b ≤ 90) ∨ (97 ≤ b ∧ b ≤ 122) ∨ (48 ≤ b ∧ b ≤ 57)
      ∨ b = 95 ∨ b = 46 ∨ b = 45 ∨ b = 126 then true else false

/-- Uppercase hex digit character for `n < 16`. -/
def hexChar (n : Nat) : Char := Char.ofNat (if n < 10 then 48 + n else 55 + n)

/-- Percent-encoding of one UTF-8 byte under `quote_plus` with `safe=''`:
safe bytes stay themselves, the space byte becomes `+`, anything else
becomes `%XX` with uppercase hex. -/
def quoteByte (b : Nat) : List Char :=
  if alwaysSafe b then [Char.ofNat b]
  else if b = 32 then ['+']
  else ['%', hexChar (b / 16), hexChar (b % 16)]

/-- CPython `urllib.parse.quote_plus(s, safe='')`, as `urlencode` applies
it to keys and values. -/
def quote_plus (s : String) : String := String.mk ((utf8Encode s).flatMap quoteByte)

/-- Value of one hex digit character, upper or lower case. -/
def hexVal (c : Char) : Option Nat :=
  if 48 ≤ c.toNat ∧ c.toNat ≤ 57 then some (c.toNat - 48)
  else if 65 ≤ c.toNat ∧ c.toNat ≤ 70 then some (c.toNat - 65 + 10)
  else if 97 ≤ c.toNat ∧ c.toNat ≤ 102 then some (c.toNat - 97 + 10)
  else none

/-- Progress through a `%XX` escape while scanning: `p0` outside an
escape, `p1` right after `%`, `p2 a h1` after `%` and one hex digit of
value `a` whose character byte is `h1` (kept so it can fall back to a
literal when the second digit is missing). -/
inductive PctState where
  | p0
  | p1
  | p2 (a : Nat) (h1 : Nat)

/-- Scanner for CPython `urllib.parse.unquote`: within runs of ASCII
characters, `%XX` escapes and literal ASCII characters accumulate as
bytes (in `acc`, reversed) that are UTF-8-decoded together; a `%` not
followed by two hex digits stays literal; a non-ASCII character flushes
the run and passes through unchanged. -/
def unquoteAux : List Char → PctState → List Nat → List Char
  | [], st, acc =>
    match st with
    | .p0 => utf8DecodeReplace acc.reverse
    | .p1 => utf8DecodeReplace (37 :: acc).reverse
    | .p2 _ h1 => utf8DecodeReplace (h1 :: 37 :: acc).reverse
  | c :: cs, st, acc =>
    match st with
    | .p0 =>
      if c = '%' then unquoteAux cs .p1 acc
      else if c.toNat < 128 then unquoteAux cs .p0 (c.toNat :: acc)
      else utf8DecodeReplace acc.reverse ++ c :: unquoteAux cs .p0 []
    | .p1 =>
      match hexVal c with
      | some a => unquoteAux cs (.p2 a c.toNat) acc
      | none =>
        if c = '%' then unquoteAux cs .p1 (37 :: acc)
        else if c.toNat < 128 then unquoteAux cs .p0 (c.toNat :: 37 :: acc)
        else utf8DecodeReplace (37 :: acc).reverse ++ c :: unquoteAux cs .p0 []
    | .p2 a h1 =>
      match hexVal c with
      | some b => unquoteAux cs .p0 ((a * 16 + b) :: acc)
      | none =>
        if c = '%' then unquoteAux cs .p1 (h1 :: 37 :: acc)
        else if c.toNat < 128 then unquoteAux cs .p0 (c.toNat :: h1 :: 37 :: acc)
        else utf8DecodeReplace (h1 :: 37 :: acc).reverse ++ c :: unquoteAux cs .p0 []

/-- CPython `urllib.parse.unquote_plus`: `+` becomes space, then percent
escapes are decoded. -/
def unquote_plus (s : String) : String :=
  String.mk (unquoteAux (s.data.map (fun c => if c = '+' then ' ' else c)) .p0 [])

/-! ## `urllib.parse.urlencode`, `urlsplit`, `parse_qs` -/

/-- CPython `urllib.parse.urlencode` on a dict with string keys and
values, in insertion order: the `&`-join of the `quote_plus`-encoded
`key=value` pieces (the join written as direct recursion). -/
def urlencode : List (String × String) → String
  | [] => ""
  | [kv] => quote_plus kv.1 ++ "=" ++ quote_plus kv.2
  | kv :: rest => quote_plus kv.1 ++ "=" ++ quote_plus kv.2 ++ "&" ++ urlencode rest

/-- The failure modes of the embedded flow, by raise site.  The spec's
error taxonomy maps onto them as follows: `MalformedCallbackError` is
`invalidIPv6Url` (the `ValueError` `urlsplit` raises on an unparseable
URL) or `noneSubscript` (the `TypeError` from `None[0]` when `code` or
`state` is missing); `StateMismatchError` is `stateMismatch` (the
explicit `ValueError('Did not receive expected state')`);
`TokenExchangeError` is `httpError` (the `requests` `HTTPError` from
`response.raise_for_status()`, carrying the response status and body). -/
inductive PyErr where
  | invalidIPv6Url
  | noneSubscript
  | indexError
  | stateMismatch
  | httpError (status : Nat) (body : String)
deriving DecidableEq, Repr

/-- Result fields of CPython `urllib.parse.urlsplit` (scheme is kept
uncased; `urlparse` adds a `params` field the source never reads). -/
structure SplitResult where
  scheme : List Char
  netloc : List Char
  path : List Char
  query : List Char
  fragment : List Char
deriving DecidableEq, Repr

/-- Characters CPython `urlsplit` deletes anywhere in the URL
(`_UNSAFE_URL_BYTES_TO_REMOVE`: tab, CR, LF). -/
def isUnsafeUrlChar (c : Char) : Bool :=
  if c = '\t' ∨ c = '\r' ∨ c = '\n' then true else false

/-- ASCII letter test (Python `c.isascii() and c.isalpha()`). -/
def isAsciiAlpha (c : Char) : Bool :=
  if (65 ≤ c.toNat ∧ c.toNat ≤ 90) ∨ (97 ≤ c.toNat ∧ c.toNat ≤ 122) then true else false

/-- Characters allowed in a URL scheme (`scheme_chars`). -/
def isSchemeChar (c : Char) : Bool :=
  if isAsciiAlpha c = true ∨ (48 ≤ c.toNat ∧ c.toNat ≤ 57) ∨ c = '+' ∨ c = '-' ∨ c = '.'
  then true else false

/-- Recognise and remove a leading `scheme:` (CPython `urlsplit`):
removed only when the colon is preceded by an ASCII letter followed by
scheme characters.  Returns the scheme (possibly empty) and the rest. -/
def stripSchemePair (url : List Char) : List Char × List Char :=
  match List.span (fun c => c != ':') url with
  | (pre, rest) =>
    match rest, pre with
    | _ :: after, p0 :: _ =>
      if isAsciiAlpha p0 && pre.all isSchemeChar then (pre, after) else ([], url)
    | _, _ => ([], url)

/-- Network-location split (CPython `_splitnetloc`, applied after `//`):
the netloc extends to the first `/`, `?` or `#`. -/
def splitNetloc (url : List Char) : List Char × List Char :=
  List.span (fun c => c != '/' && c != '?' && c != '#') url

/-- CPython `urllib.parse.urlsplit` (as `urlparse` calls it in
`parse_callback_url`): strip leading C0-control-or-space characters,
delete tab/CR/LF, recognise `scheme:` and `//netloc`, take the fragment
from the first `#` and the query from the first `?`; mismatched `[`/`]`
in the netloc raises `ValueError('Invalid IPv6 URL')`.  The
internationalised-host validation some CPython versions add
(`_check_bracketed_host`, `_checknetloc`) is not modelled; no claim
exercises it. -/
def urlsplit (url0 : List Char) : Except PyErr SplitResult :=
  let url1 := (url0.dropWhile (fun c => c.toNat ≤ 32)).filter (fun c => !isUnsafeUrlChar c)
  let sp := stripSchemePair url1
  let url2 := sp.2
  let nl : List Char × List Char :=
    if url2.take 2 = ['/', '/'] then splitNetloc (url2.drop 2) else ([], url2)
  let netloc := nl.1
  let url3 := nl.2
  if ('[' ∈ netloc ∧ ']' ∉ netloc) ∨ (']' ∈ netloc ∧ '[' ∉ netloc) then
    .error .invalidIPv6Url
  else
    let sf := List.span (fun c => c != '#') url3
    let sq := List.span (fun c => c != '?') sf.1
    .ok ⟨sp.1, netloc, sq.1, sq.2.drop 1, sf.2.drop 1⟩

/-- Split at every `&` (Python `str.split('&')`; empty segments kept). -/
def splitAmp : List Char → List (List Char)
  | [] => [[]]
  | c :: rest =>
    if c = '&' then [] :: splitAmp rest
    else
      match splitAmp rest with
      | h :: t => (c :: h) :: t
      | [] => [[c]]

/-- Split a segment at its first `=` (Python `split('=', 1)`); `none`
when there is no `=`. -/
def splitEq1 (cs : List Char) : Option (List Char × List Char) :=
  match List.span (fun c => c != '=') cs with
  | (pre, _ :: post) => some (pre, post)
  | (_, []) => none

/-- CPython `urllib.parse.parse_qsl` with default arguments
(`keep_blank_values=False`, separator `&`): empty segments, segments
without `=` and segments with an empty value are dropped; names and
values are `unquote_plus`-decoded. -/
def parse_qsl (qs : List Char) : List (String × String) :=
  (splitAmp qs).filterMap (fun nv =>
    if nv.isEmpty then none
    else
      match splitEq1 nv with
      | none => none
      | some (n, v) =>
        if v.isEmpty then none
        else some (unquote_plus (String.mk n), unquote_plus (String.mk v)))

/-- Append one name/value pair to the grouped dict (insertion-ordered,
like a Python `dict`). -/
def insertPair : List (String × List String) → String → String → List (String × List String)
  | [], n, v => [(n, [v])]
  | (k, vs) :: rest, n, v =>
    if k = n then (k, vs ++ [v]) :: rest else (k, vs) :: insertPair rest n v

/-- CPython `urllib.parse.parse_qs` with default arguments: group the
`parse_qsl` pairs by name, preserving value order. -/
def parse_qs (qs : List Char) : List (String × List String) :=
  (parse_qsl qs).foldl (fun acc nv => insertPair acc nv.1 nv.2) []

/-- Python `dict.get` on the parsed query dict (`None` when absent). -/
def qsGet (d : List (String × List String)) (k : String) : Option (List String) :=
  match d with
  | [] => none
  | (k0, vs) :: rest => if k0 = k then some vs else qsGet rest k

/-! ## The source module `evesso/authorize.py` -/

/-- Modelled from the spec: `const.py` (imported for `AUTH_URL`,
`TOKEN_URL`, `HEADERS`) is not under `src/`, and the spec specifies only
`{auth_endpoint}?{query}`.  This is the EVE SSO authorization endpoint
the builder prepends; only the absence of `?`, `#` and control
characters in it matters to any claim. -/
def AUTH_URL : String := "https://login.eveonline.com/v2/oauth/authorize/"

/-- Remove trailing `=` bytes (Python `bytes.rstrip(b'=')`). -/
def rstrip61 (l : List Nat) : List Nat :=
  (l.reverse.dropWhile (fun b => b == 61)).reverse

/-- CPython `secrets.token_urlsafe`: URL-safe base64 of the random bytes
with the trailing `=` padding stripped, ASCII-decoded. -/
def token_urlsafe (tok : List Nat) : String :=
  String.mk ((rstrip61 (b64urlEncodeBytes tok)).map Char.ofNat)

/-- Embedding of the module-level `STATE = secrets.token_urlsafe(32)`:
`entropy` models the 32 random bytes drawn once at module load.  Every
function below that reads the global receives the same value as its
`state` argument. -/
def STATE (entropy : List Nat) : String := token_urlsafe entropy

/-- Embedding of `generate_byte_string`: `token` models the
`secrets.token_bytes(length)` result; the function returns its URL-safe
base64 encoding, padding included (the Python value is `bytes`). -/
def generate_byte_string (token : List Nat) : List Nat :=
  b64urlEncodeBytes token

/-- Embedding of `generate_challenge`: SHA-256 of the verifier bytes (the
encoded form itself, not re-decoded), URL-safe base64, `.decode()` to a
string, `.replace("=", "")`.  Replacing the one-character pattern `=` by
the empty string deletes every `=` byte; it is done here before the
ASCII decode, with which it commutes. -/
def generate_challenge (verifier : List Nat) : String :=
  String.mk (((b64urlEncodeBytes (sha256 verifier)).filter (fun b => b != 61)).map Char.ofNat)

/-- Embedding of `build_auth_url`; `state` is the module-level `STATE`. -/
def build_auth_url (state : String) (client_id : String) (scope : String)
    (callback_url : String) (code_verifier : List Nat) : String :=
  AUTH_URL ++ "?" ++ urlencode
    [("response_type", "code"),
     ("redirect_uri", callback_url),
     ("client_id", client_id),
     ("scope", scope),
     ("code_challenge", generate_challenge code_verifier),
     ("code_challenge_method", "S256"),
     ("state", state)]

/-- Embedding of `parse_callback_url`: `urlparse` then `parse_qs` on the
query component. -/
def parse_callback_url (callback_url : String) : Except PyErr (List (String × List String)) :=
  match urlsplit callback_url.data with
  | .error e => .error e
  | .ok parsed_path => .ok (parse_qs parsed_path.query)

/-- Python `x[0]` applied to a `dict.get` result: `None` is not
subscriptable (`TypeError`), an empty list raises `IndexError` (the
latter is unreachable: `parse_qs` never stores empty lists). -/
def subscript0 : Option (List String) → Except PyErr String
  | none => .error .noneSubscript
  | some [] => .error .indexError
  | some (x :: _) => .ok x

/-- The `data` dict `get_auth_jwt` posts to the token endpoint
(`code_verifier` is the raw bytes value, as in the source). -/
structure TokenRequest where
  grant_type : String
  client_id : String
  code : String
  code_verifier : List Nat
deriving DecidableEq, Repr

/-- A token-endpoint HTTP response: status code and body.
`response.json()` is modelled as returning the body itself; the claims
treat the token mapping as opaque. -/
structure HttpResponse where
  status : Nat
  body : String
deriving DecidableEq, Repr

instance {ε α : Type} [DecidableEq ε] [DecidableEq α] : DecidableEq (Except ε α) :=
  fun a b =>
  match a, b with
  | .ok x, .ok y =>
    match decEq x y with
    | isTrue h => isTrue (congrArg Except.ok h)
    | isFalse h => isFalse (fun hh => h (Except.ok.inj hh))
  | .ok _, .error _ => isFalse (fun hh => Except.noConfusion hh)
  | .error _, .ok _ => isFalse (fun hh => Except.noConfusion hh)
  | .error x, .error y =>
    match decEq x y with
    | isTrue h => isTrue (congrArg Except.error h)
    | isFalse h => isFalse (fun hh => h (Except.error.inj hh))

/-- Observable outcome of one `get_auth_jwt` run: the authorization URL
it displayed or opened, the POST requests actually sent to the token
endpoint, and the returned JWT or the raised error. -/
structure AuthFlowResult where
  authUrl : String
  requests : List TokenRequest
  result : Except PyErr String
deriving DecidableEq, Repr

/-- Embedding of `get_auth_jwt`.  `state` is the module-level `STATE`;
`code_verifier` models this run's `generate_byte_string()` result;
`callback` is the redirect URL obtained from either acquisition path
(`input()` when `cli` is true, `listen_for_callback()` otherwise — both
external collaborators returning one string, so the flow is the same
function of that string either way); `post` models the
`requests.post(TOKEN_URL, data=data, headers=HEADERS)` transport.
`response.raise_for_status()` raises exactly for status 400–599. -/
def get_auth_jwt (state : String) (client_id : String) (scope : String)
    (callback_url : String) (code_verifier : List Nat) (callback : String)
    (post : TokenRequest → HttpResponse) : AuthFlowResult :=
  let auth_url := build_auth_url state client_id scope callback_url code_verifier
  match parse_callback_url callback with
  | .error e => ⟨auth_url, [], .error e⟩
  | .ok query_string =>
    match subscript0 (qsGet query_string "code") with
    | .error e => ⟨auth_url, [], .error e⟩
    | .ok code =>
      match subscript0 (qsGet query_string "state") with
      | .error e => ⟨auth_url, [], .error e⟩
      | .ok st =>
        if ¬st = state then ⟨auth_url, [], .error .stateMismatch⟩
        else
          let data : TokenRequest := ⟨"authorization_code", client_id, code, code_verifier⟩
          let resp := post data
          if 400 ≤ resp.status ∧ resp.status < 600 then
            ⟨auth_url, [data], .error (.httpError resp.status resp.body)⟩
          else
            ⟨auth_url, [data], .ok resp.body⟩

/-! ## Lemmas: base64 -/

/-- Membership in the URL-safe base64 alphabet proper (no padding). -/
def b64Alphabet (b : Nat) : Prop :=
  (65 ≤ b ∧ b ≤ 90) ∨ (97 ≤ b ∧ b ≤ 122) ∨ (48 ≤ b ∧ b ≤ 57) ∨ b = 45 ∨ b = 95

theorem b64Char_alphabet (n : Nat) : b64Alphabet (b64Char n) := by
  unfold b64Char b64Alphabet
  split <;> [omega; skip]
  split <;> [omega; skip]
  split <;> [omega; skip]
  split <;> omega

theorem b64Char_ne_61 (n : Nat) : b64Char n ≠ 61 := by
  have := b64Char_alphabet n
  unfold b64Alphabet at this
  omega

theorem b64CharDecode_b64Char : ∀ n, n < 64 → b64CharDecode (b64Char n) = some n := by decide

theorem mem_b64urlEncodeBytes (l : List Nat) (b : Nat) (hb : b ∈ b64urlEncodeBytes l) :
    b64Alphabet b ∨ b = 61 := by
  induction l using b64urlEncodeBytes.induct with
  | case1 => simp [b64urlEncodeBytes] at hb
  | case2 a =>
    simp [b64urlEncodeBytes] at hb
    rcases hb with h | h | h | h <;> first | (subst h; exact .inl (b64Char_alphabet _)) | omega
  | case3 a c =>
    simp [b64urlEncodeBytes] at hb
    rcases hb with h | h | h | h <;> first | (subst h; exact .inl (b64Char_alphabet _)) | omega
  | case4 a c d rest ih =>
    simp [b64urlEncodeBytes] at hb
    rcases hb with h | h | h | h | h <;>
      first | (subst h; exact .inl (b64Char_alphabet _)) | (exact ih h)

theorem b64urlDecode_encode (l : List Nat) (hl : ∀ b ∈ l, b < 256) :
    b64urlDecodeBytes (b64urlEncodeBytes l) = some l := by
  induction l using b64urlEncodeBytes.induct with
  | case1 => rfl
  | case2 a =>
    have ha : a < 256 := hl a (by simp)
    have h1 : a / 4 < 64 := by omega
    have h2 : a % 4 * 16 < 64 := by omega
    simp only [b64urlEncodeBytes, b64urlDecodeBytes,
      b64CharDecode_b64Char _ h1, b64CharDecode_b64Char _ h2]
    simp
    omega
  | case3 a b =>
    have ha : a < 256 := hl a (by simp)
    have hb : b < 256 := hl b (by simp)
    have h1 : a / 4 < 64 := by omega
    have h2 : a % 4 * 16 + b / 16 < 64 := by omega
    have h3 : b % 16 * 4 < 64 := by omega
    simp only [b64urlEncodeBytes, b64urlDecodeBytes, b64CharDecode_b64Char _ h1,
      b64CharDecode_b64Char _ h2, b64CharDecode_b64Char _ h3]
    rw [if_neg (b64Char_ne_61 _)]
    simp
    omega
  | case4 a b c rest ih =>
    have ha : a < 256 := hl a (by simp)
    have hb : b < 256 := hl b (by simp)
    have hc : c < 256 := hl c (by simp)
    have hrest : ∀ x ∈ rest, x < 256 := fun x hx => hl x (by simp [hx])
    have h1 : a / 4 < 64 := by omega
    have h2 : a % 4 * 16 + b / 16 < 64 := by omega
    have h3 : b % 16 * 4 + c / 64 < 64 := by omega
    have h4 : c % 64 < 64 := by omega
    simp only [b64urlEncodeBytes, b64urlDecodeBytes, b64CharDecode_b64Char _ h1,
      b64CharDecode_b64Char _ h2, b64CharDecode_b64Char _ h3, b64CharDecode_b64Char _ h4]
    rw [if_neg (b64Char_ne_61 _), if_neg (b64Char_ne_61 _)]
    rw [ih hrest]
    simp
    constructor
    · omega
    constructor
    · omega
    · omega

theorem length_b64urlEncodeBytes_mod (l : List Nat) :
    (b64urlEncodeBytes l).length % 4 = 0 := by
  induction l using b64urlEncodeBytes.induct with
  | case1 => rfl
  | case2 a => simp [b64urlEncodeBytes]
  | case3 a b => simp [b64urlEncodeBytes]
  | case4 a b c rest ih => simp [b64urlEncodeBytes]; omega


/-! ## Lemmas: UTF-8 and percent-encoding -/
theorem char_toNat_valid (c : Char) :
    c.toNat < 55296 ∨ (57343 < c.toNat ∧ c.toNat < 1114112) := by
  have h := c.valid
  have h2 : c.toNat = c.val.toNat := rfl
  rcases h with h | h
  · left; omega
  · right; omega

theorem utf8Lead_one (b : Nat) (h : b < 128) : utf8Lead b = .inl [Char.ofNat b] := by
  unfold utf8Lead
  rw [if_pos h]

theorem utf8Lead_two (b : Nat) (h : 194 ≤ b ∧ b ≤ 223) :
    utf8Lead b = .inr (128, 191, 1, b - 192) := by
  unfold utf8Lead
  rw [if_neg (by omega), if_pos h]

theorem utf8Lead_three (b : Nat) (h : 224 ≤ b ∧ b ≤ 239) :
    utf8Lead b = .inr (if b = 224 then 160 else 128, if b = 237 then 159 else 191, 2, b - 224) := by
  unfold utf8Lead
  rw [if_neg (by omega), if_neg (by omega)]
  by_cases h0 : b = 224
  · rw [if_pos h0, if_pos h0, if_neg (by omega), h0]
  by_cases h1 : b ≤ 236
  · rw [if_neg h0, if_pos (by omega), if_neg h0, if_neg (by omega)]
  by_cases h2 : b = 237
  · rw [if_neg h0, if_neg (by omega), if_pos h2, if_neg (by omega), if_pos h2, h2]
  · rw [if_neg h0, if_neg (by omega), if_neg h2, if_pos (by omega), if_neg (by omega),
      if_neg h2]

theorem utf8Lead_four (b : Nat) (h : 240 ≤ b ∧ b ≤ 244) :
    utf8Lead b = .inr (if b = 240 then 144 else 128, if b = 244 then 143 else 191, 3, b - 240) := by
  unfold utf8Lead
  rw [if_neg (by omega), if_neg (by omega), if_neg (by omega), if_neg (by omega),
    if_neg (by omega), if_neg (by omega)]
  by_cases h0 : b = 240
  · rw [if_pos h0, if_pos h0, if_neg (by omega), h0]
  by_cases h1 : b ≤ 243
  · rw [if_neg h0, if_pos (by omega), if_neg h0, if_neg (by omega)]
  · have h2 : b = 244 := by omega
    rw [if_neg h0, if_neg (by omega), if_pos h2, if_neg h0, if_pos h2, h2]

theorem decAux_cons_inl (b : Nat) (cs : List Char) (rest : List Nat)
    (h : utf8Lead b = .inl cs) :
    utf8DecodeAux (b :: rest) none = cs ++ utf8DecodeAux rest none := by
  conv_lhs => rw [utf8DecodeAux]
  rw [h]

theorem decAux_cons_inr (b : Nat) (p : Nat × Nat × Nat × Nat) (rest : List Nat)
    (h : utf8Lead b = .inr p) :
    utf8DecodeAux (b :: rest) none = utf8DecodeAux rest (some p) := by
  conv_lhs => rw [utf8DecodeAux]
  rw [h]

theorem decAux_cont_more (b lo hi need acc : Nat) (rest : List Nat)
    (h : lo ≤ b ∧ b ≤ hi) (hneed : ¬need = 1) :
    utf8DecodeAux (b :: rest) (some (lo, hi, need, acc)) =
      utf8DecodeAux rest (some (128, 191, need - 1, acc * 64 + (b - 128))) := by
  conv_lhs => rw [utf8DecodeAux]
  rw [if_pos h, if_neg hneed]

theorem decAux_cont_done (b lo hi acc : Nat) (rest : List Nat) (h : lo ≤ b ∧ b ≤ hi) :
    utf8DecodeAux (b :: rest) (some (lo, hi, 1, acc)) =
      Char.ofNat (acc * 64 + (b - 128)) :: utf8DecodeAux rest none := by
  conv_lhs => rw [utf8DecodeAux]
  rw [if_pos h, if_pos rfl]

theorem utf8_decode_encode_cons (c : Char) (bs : List Nat) :
    utf8DecodeAux (utf8EncodeChar c ++ bs) none = c :: utf8DecodeAux bs none := by
  have hv := char_toNat_valid c
  have hofn : Char.ofNat c.toNat = c := Char.ofNat_toNat c
  set n := c.toNat with hn
  by_cases h1 : n < 128
  · rw [show utf8EncodeChar c = [n] by simp [utf8EncodeChar, ← hn, if_pos h1]]
    rw [List.singleton_append, decAux_cons_inl _ _ _ (utf8Lead_one n h1),
      List.singleton_append, hofn]
  by_cases h2 : n < 2048
  · rw [show utf8EncodeChar c = [192 + n / 64, 128 + n % 64] by
      simp [utf8EncodeChar, ← hn, if_neg h1, if_pos h2]]
    rw [List.cons_append, List.singleton_append,
      decAux_cons_inr _ _ _ (utf8Lead_two _ (by omega)),
      decAux_cont_done _ _ _ _ _ (by omega),
      show (192 + n / 64 - 192) * 64 + (128 + n % 64 - 128) = n by omega, hofn]
  by_cases h3 : n < 65536
  · rw [show utf8EncodeChar c = [224 + n / 4096, 128 + n / 64 % 64, 128 + n % 64] by
      simp [utf8EncodeChar, ← hn, if_neg h1, if_neg h2, if_pos h3]]
    rw [List.cons_append, List.cons_append, List.singleton_append,
      decAux_cons_inr _ _ _ (utf8Lead_three _ (by omega))]
    have hb2 : (if 224 + n / 4096 = 224 then 160 else 128) ≤ 128 + n / 64 % 64 ∧
        128 + n / 64 % 64 ≤ (if 224 + n / 4096 = 237 then 159 else 191) := by
      constructor
      · split
        · omega
        · omega
      · split
        · omega
        · omega
    rw [decAux_cont_more _ _ _ _ _ _ hb2 (by omega),
      decAux_cont_done _ _ _ _ _ (by omega),
      show ((224 + n / 4096 - 224) * 64 + (128 + n / 64 % 64 - 128)) * 64
          + (128 + n % 64 - 128) = n by omega, hofn]
  · rw [show utf8EncodeChar c = [240 + n / 262144, 128 + n / 4096 % 64, 128 + n / 64 % 64,
        128 + n % 64] by simp [utf8EncodeChar, ← hn, if_neg h1, if_neg h2, if_neg h3]]
    rw [List.cons_append, List.cons_append, List.cons_append, List.singleton_append,
      decAux_cons_inr _ _ _ (utf8Lead_four _ (by omega))]
    have hb2 : (if 240 + n / 262144 = 240 then 144 else 128) ≤ 128 + n / 4096 % 64 ∧
        128 + n / 4096 % 64 ≤ (if 240 + n / 262144 = 244 then 143 else 191) := by
      constructor
      · split
        · omega
        · omega
      · split
        · omega
        · omega
    rw [decAux_cont_more _ _ _ _ _ _ hb2 (by omega),
      decAux_cont_more _ _ _ _ _ _ (by omega) (by omega),
      decAux_cont_done _ _ _ _ _ (by omega),
      show (((240 + n / 262144 - 240) * 64 + (128 + n / 4096 % 64 - 128)) * 64
          + (128 + n / 64 % 64 - 128)) * 64 + (128 + n % 64 - 128) = n by omega, hofn]

theorem utf8_decode_encode (l : List Char) :
    utf8DecodeAux (l.flatMap utf8EncodeChar) none = l := by
  induction l with
  | nil => rfl
  | cons c cs ih => rw [List.flatMap_cons, utf8_decode_encode_cons, ih]

theorem toNat_ofNat_valid (b : Nat) (h : b.isValidChar) : (Char.ofNat b).toNat = b := by
  rw [Char.ofNat, dif_pos h]
  rfl

theorem toNat_ofNat_lt128 (b : Nat) (h : b < 128) : (Char.ofNat b).toNat = b :=
  toNat_ofNat_valid b (Or.inl (by omega))

theorem mem_utf8EncodeChar_lt (c : Char) (b : Nat) (hb : b ∈ utf8EncodeChar c) : b < 256 := by
  have hv := char_toNat_valid c
  simp only [utf8EncodeChar] at hb
  split at hb <;> [skip; split at hb] <;> [skip; skip; split at hb] <;> simp at hb <;> omega

theorem alwaysSafe_iff (b : Nat) :
    alwaysSafe b = true ↔
      ((65 ≤ b ∧ b ≤ 90) ∨ (97 ≤ b ∧ b ≤ 122) ∨ (48 ≤ b ∧ b ≤ 57)
        ∨ b = 95 ∨ b = 46 ∨ b = 45 ∨ b = 126) := by
  unfold alwaysSafe
  split <;> simp_all

theorem hexVal_hexChar : ∀ n, n < 16 → hexVal (hexChar n) = some n := by decide

theorem uq_step_p0_push (c : Char) (h1 : ¬c = '%') (h2 : c.toNat < 128)
    (cs : List Char) (acc : List Nat) :
    unquoteAux (c :: cs) .p0 acc = unquoteAux cs .p0 (c.toNat :: acc) := by
  conv_lhs => rw [unquoteAux]
  rw [if_neg h1, if_pos h2]

theorem uq_step_p0_pct (cs : List Char) (acc : List Nat) :
    unquoteAux ('%' :: cs) .p0 acc = unquoteAux cs .p1 acc := by
  conv_lhs => rw [unquoteAux]
  rw [if_pos rfl]

theorem uq_step_p1_hex (c : Char) (a : Nat) (h : hexVal c = some a)
    (cs : List Char) (acc : List Nat) :
    unquoteAux (c :: cs) .p1 acc = unquoteAux cs (.p2 a c.toNat) acc := by
  conv_lhs => rw [unquoteAux]
  rw [h]

theorem uq_step_p2_hex (c : Char) (b0 : Nat) (h : hexVal c = some b0)
    (a h1 : Nat) (cs : List Char) (acc : List Nat) :
    unquoteAux (c :: cs) (.p2 a h1) acc = unquoteAux cs .p0 ((a * 16 + b0) :: acc) := by
  conv_lhs => rw [unquoteAux]
  rw [h]

theorem unquote_quote_step (b : Nat) (hb : b < 256) (cs : List Char) (acc : List Nat) :
    unquoteAux ((quoteByte b).map (fun c => if c = '+' then ' ' else c) ++ cs) .p0 acc =
      unquoteAux cs .p0 (b :: acc) := by
  unfold quoteByte
  by_cases hs : alwaysSafe b = true
  · have hb128 : b < 128 := by have := (alwaysSafe_iff b).mp hs; omega
    have htn : (Char.ofNat b).toNat = b := toNat_ofNat_lt128 b hb128
    have hne : ¬Char.ofNat b = '+' := by
      intro h
      have := congrArg Char.toNat h
      rw [htn] at this
      have h43 := (alwaysSafe_iff b).mp hs
      rw [show ('+' : Char).toNat = 43 from rfl] at this
      omega
    rw [if_pos hs]
    simp only [List.map_cons, List.map_nil, if_neg hne, List.singleton_append]
    have hnp : ¬Char.ofNat b = '%' := by
      intro h
      have := congrArg Char.toNat h
      rw [htn] at this
      have h37 := (alwaysSafe_iff b).mp hs
      rw [show ('%' : Char).toNat = 37 from rfl] at this
      omega
    rw [uq_step_p0_push _ hnp (by omega), htn]
  by_cases h32 : b = 32
  · rw [if_neg hs, if_pos h32]
    rw [show (['+'].map (fun (c : Char) => if c = '+' then ' ' else c)) = [' '] from rfl,
      List.singleton_append, uq_step_p0_push _ (by decide) (by decide),
      show (' ' : Char).toNat = 32 from rfl, h32]
  · rw [if_neg hs, if_neg h32]
    have hhex1 : hexVal (hexChar (b / 16)) = some (b / 16) := hexVal_hexChar _ (by omega)
    have hhex2 : hexVal (hexChar (b % 16)) = some (b % 16) := hexVal_hexChar _ (by omega)
    have hcne : ∀ n, n < 16 → ¬hexChar n = '+' := by decide
    simp only [List.map_cons, List.map_nil]
    rw [if_neg (by decide : ¬('%' : Char) = '+'), if_neg (hcne _ (by omega : b / 16 < 16)),
      if_neg (hcne _ (by omega : b % 16 < 16))]
    simp only [List.cons_append, List.singleton_append]
    rw [uq_step_p0_pct, uq_step_p1_hex _ _ hhex1, uq_step_p2_hex _ _ hhex2]
    rw [show b / 16 * 16 + b % 16 = b by omega, List.nil_append]

theorem unquote_quote_flat (bytes : List Nat) (hbs : ∀ b ∈ bytes, b < 256) (acc : List Nat) :
    unquoteAux ((bytes.flatMap quoteByte).map (fun c => if c = '+' then ' ' else c)) .p0 acc =
      utf8DecodeAux (acc.reverse ++ bytes) none := by
  induction bytes generalizing acc with
  | nil =>
    simp only [List.flatMap_nil, List.map_nil, List.append_nil]
    rfl
  | cons b bs ih =>
    rw [List.flatMap_cons, List.map_append, unquote_quote_step b (hbs b (by simp)) _ acc,
      ih (fun x hx => hbs x (by simp [hx]))]
    simp

theorem unquote_plus_quote_plus (s : String) : unquote_plus (quote_plus s) = s := by
  have hbs : ∀ b ∈ utf8Encode s, b < 256 := by
    intro b hb
    obtain ⟨c, hc, hbc⟩ := List.mem_flatMap.mp hb
    exact mem_utf8EncodeChar_lt c b hbc
  show String.mk (unquoteAux (((utf8Encode s).flatMap quoteByte).map
    (fun c => if c = '+' then ' ' else c)) .p0 []) = s
  rw [unquote_quote_flat _ hbs [], List.reverse_nil, List.nil_append, utf8Encode,
    utf8_decode_encode]

/-- Character inventory of `quote_plus` output. -/
theorem mem_quote_plus (s : String) (c : Char) (hc : c ∈ (quote_plus s).data) :
    alwaysSafe c.toNat = true ∨ c = '+' ∨ c = '%' := by
  obtain ⟨b, hb, hcb⟩ := List.mem_flatMap.mp hc
  have hb256 : b < 256 := by
    obtain ⟨ch, hch, hbch⟩ := List.mem_flatMap.mp hb
    exact mem_utf8EncodeChar_lt ch b hbch
  unfold quoteByte at hcb
  by_cases hs : alwaysSafe b = true
  · rw [if_pos hs] at hcb
    simp at hcb
    subst hcb
    left
    rw [toNat_ofNat_lt128 b (by have := (alwaysSafe_iff b).mp hs; omega)]
    exact hs
  by_cases h32 : b = 32
  · rw [if_neg hs, if_pos h32] at hcb
    simp at hcb
    subst hcb
    right; left; rfl
  · rw [if_neg hs, if_neg h32] at hcb
    have hhex : ∀ n, n < 16 → alwaysSafe (hexChar n).toNat = true := by decide
    simp at hcb
    rcases hcb with h | h | h
    · subst h; right; right; rfl
    · subst h; left; exact hhex _ (by omega)
    · subst h; left; exact hhex _ (by omega)

theorem safe_encode_id (l : List Char) (h : ∀ c ∈ l, alwaysSafe c.toNat = true) :
    (l.flatMap utf8EncodeChar).flatMap quoteByte = l := by
  induction l with
  | nil => rfl
  | cons c cs ih =>
    have hc := h c (by simp)
    have hlt : c.toNat < 128 := by have := (alwaysSafe_iff c.toNat).mp hc; omega
    rw [List.flatMap_cons, show utf8EncodeChar c = [c.toNat] by
        simp [utf8EncodeChar, if_pos hlt],
      List.flatMap_append, List.flatMap_cons, List.flatMap_nil,
      show quoteByte c.toNat = [Char.ofNat c.toNat] by unfold quoteByte; rw [if_pos hc],
      Char.ofNat_toNat, List.append_nil, List.singleton_append,
      ih (fun x hx => h x (by simp [hx]))]

theorem quote_plus_eq_self (s : String) (h : ∀ c ∈ s.data, alwaysSafe c.toNat = true) :
    quote_plus s = s := by
  show String.mk ((s.data.flatMap utf8EncodeChar).flatMap quoteByte) = s
  rw [safe_encode_id s.data h]

theorem unquote_plus_eq_self (s : String) (h : ∀ c ∈ s.data, alwaysSafe c.toNat = true) :
    unquote_plus s = s := by
  conv_lhs => rw [← quote_plus_eq_self s h]
  exact unquote_plus_quote_plus s

theorem utf8EncodeChar_ne_nil (c : Char) : utf8EncodeChar c ≠ [] := by
  simp only [utf8EncodeChar]
  split <;> [skip; split] <;> [skip; skip; split] <;> simp

theorem quoteByte_ne_nil (b : Nat) : quoteByte b ≠ [] := by
  unfold quoteByte
  split
  · simp
  · split <;> simp

theorem quote_plus_ne_empty (s : String) (h : ¬s = "") : ¬quote_plus s = "" := by
  intro hq
  apply h
  have hd : ((s.data.flatMap utf8EncodeChar).flatMap quoteByte) = [] := congrArg String.data hq
  cases hs : s.data with
  | nil =>
    cases s with
    | mk data =>
      simp only at hs
      rw [hs]
  | cons c cs =>
    exfalso
    rw [hs, List.flatMap_cons, List.flatMap_append] at hd
    have h1 : (utf8EncodeChar c).flatMap quoteByte = [] := (List.append_eq_nil.mp hd).1
    obtain ⟨b, bs, hb⟩ : ∃ b bs, utf8EncodeChar c = b :: bs := by
      cases hs2 : utf8EncodeChar c with
      | nil => exact absurd hs2 (utf8EncodeChar_ne_nil c)
      | cons b bs => exact ⟨b, bs, rfl⟩
    rw [hb, List.flatMap_cons] at h1
    exact quoteByte_ne_nil b (List.append_eq_nil.mp h1).1

/-! ## Lemmas: query strings -/
theorem splitAmp_no_amp (p : List Char) (h : '&' ∉ p) : splitAmp p = [p] := by
  induction p with
  | nil => rfl
  | cons c cs ih =>
    have hc : ¬c = '&' := fun hh => h (by simp [hh])
    rw [splitAmp, if_neg hc, ih (fun hh => h (by simp [hh]))]

theorem splitAmp_append (p rest : List Char) (h : '&' ∉ p) :
    splitAmp (p ++ '&' :: rest) = p :: splitAmp rest := by
  induction p with
  | nil =>
    rw [List.nil_append, splitAmp, if_pos rfl]
  | cons c cs ih =>
    have hc : ¬c = '&' := fun hh => h (by simp [hh])
    rw [List.cons_append, splitAmp, if_neg hc, ih (fun hh => h (by simp [hh]))]

theorem takeWhile_append_stop (p : Char → Bool) (k rest : List Char) (c : Char)
    (hk : ∀ x ∈ k, p x = true) (hc : p c = false) :
    (k ++ c :: rest).takeWhile p = k ∧ (k ++ c :: rest).dropWhile p = c :: rest := by
  induction k with
  | nil =>
    rw [List.nil_append]
    constructor
    · simp [List.takeWhile_cons, hc]
    · simp [List.dropWhile_cons, hc]
  | cons d ds ih =>
    have hd : p d = true := hk d (by simp)
    obtain ⟨ih1, ih2⟩ := ih (fun x hx => hk x (by simp [hx]))
    constructor
    · simp [List.takeWhile_cons, hd, ih1]
    · simp [List.dropWhile_cons, hd, ih2]

theorem splitEq1_append (k v : List Char) (h : '=' ∉ k) :
    splitEq1 (k ++ '=' :: v) = some (k, v) := by
  unfold splitEq1
  have hk : ∀ x ∈ k, (x != '=') = true := by
    intro x hx
    simp only [bne_iff_ne, ne_eq]
    exact fun hh => h (hh ▸ hx)
  obtain ⟨h1, h2⟩ := takeWhile_append_stop (fun c => c != '=') k v '=' hk (by simp)
  rw [List.span_eq_take_drop, h1, h2]

theorem mk_data (s : String) : String.mk s.data = s := by cases s; rfl

theorem strData_append (a b : String) : (a ++ b).data = a.data ++ b.data := by
  cases a; cases b; rfl

theorem amp_not_mem_quote (s : String) : '&' ∉ (quote_plus s).data := by
  intro h
  rcases mem_quote_plus s _ h with hs | hp | hp
  · rw [show ('&' : Char).toNat = 38 from rfl] at hs
    exact absurd hs (by decide)
  · exact absurd hp (by decide)
  · exact absurd hp (by decide)

theorem eq_not_mem_quote (s : String) : '=' ∉ (quote_plus s).data := by
  intro h
  rcases mem_quote_plus s _ h with hs | hp | hp
  · rw [show ('=' : Char).toNat = 61 from rfl] at hs
    exact absurd hs (by decide)
  · exact absurd hp (by decide)
  · exact absurd hp (by decide)

theorem piece_no_amp (k v : String) :
    '&' ∉ (quote_plus k).data ++ '=' :: (quote_plus v).data := by
  intro h
  rcases List.mem_append.mp h with h | h
  · exact amp_not_mem_quote k h
  · rcases List.mem_cons.mp h with h | h
    · exact absurd h (by decide)
    · exact amp_not_mem_quote v h

theorem quote_data_empty_iff (s : String) : (quote_plus s).data = [] ↔ s = "" := by
  constructor
  · intro h
    by_contra hne
    exact quote_plus_ne_empty s hne (by rw [← mk_data (quote_plus s), h])
  · intro h
    rw [h]
    rfl

/-- One `key=value` piece of an `urlencode` output, through the body of
`parse_qsl`'s `filterMap`. -/
theorem parse_piece (k v : String) :
    (if ((quote_plus k).data ++ '=' :: (quote_plus v).data).isEmpty = true then none
     else
       match splitEq1 ((quote_plus k).data ++ '=' :: (quote_plus v).data) with
       | none => none
       | some (n, w) =>
         if w.isEmpty = true then none
         else some (unquote_plus (String.mk n), unquote_plus (String.mk w))) =
    if v != "" then some (k, v) else none := by
  have hne : ((quote_plus k).data ++ '=' :: (quote_plus v).data).isEmpty = false := by
    cases h : (quote_plus k).data ++ '=' :: (quote_plus v).data with
    | nil => exact absurd h (by simp)
    | cons x xs => rfl
  simp only [hne, Bool.false_eq_true, if_false,
    splitEq1_append _ _ (eq_not_mem_quote k)]
  by_cases hv : v = ""
  · rw [hv]
    rfl
  · have hqv : (quote_plus v).data ≠ [] := fun h => hv ((quote_data_empty_iff v).mp h)
    have hqvE : (quote_plus v).data.isEmpty = false := by
      cases h : (quote_plus v).data with
      | nil => exact absurd h hqv
      | cons x xs => rfl
    rw [hqvE]
    simp [mk_data, unquote_plus_quote_plus, hv]

/-- Parsing an `urlencode` output recovers exactly the pairs with
non-empty values, in order (`parse_qsl` drops the `key=` pieces whose
encoded value is empty, i.e. whose value is the empty string). -/
theorem parse_qsl_urlencode (ps : List (String × String)) :
    parse_qsl (urlencode ps).data = ps.filter (fun p => p.2 != "") := by
  induction ps using urlencode.induct with
  | case1 => rfl
  | case2 kv =>
    obtain ⟨k, v⟩ := kv
    have hdata : (urlencode [(k, v)]).data =
        (quote_plus k).data ++ '=' :: (quote_plus v).data := by
      show (quote_plus k ++ "=" ++ quote_plus v).data = _
      rw [strData_append, strData_append, show ("=" : String).data = ['='] from rfl]
      simp
    rw [parse_qsl, hdata, splitAmp_no_amp _ (piece_no_amp k v), List.filterMap_cons,
      List.filterMap_nil, parse_piece k v]
    by_cases hv : v = ""
    · simp [hv]
    · simp [hv]
  | case3 kv rest0 hne ih =>
    obtain ⟨k, v⟩ := kv
    rcases rest0 with _ | ⟨r1, rest⟩
    · exact absurd rfl hne
    have hdata : (urlencode ((k, v) :: r1 :: rest)).data =
        ((quote_plus k).data ++ '=' :: (quote_plus v).data) ++
          '&' :: (urlencode (r1 :: rest)).data := by
      show (quote_plus k ++ "=" ++ quote_plus v ++ "&" ++ urlencode (r1 :: rest)).data = _
      rw [strData_append, strData_append, strData_append, strData_append,
        show ("=" : String).data = ['='] from rfl, show ("&" : String).data = ['&'] from rfl]
      simp
    rw [parse_qsl, hdata, splitAmp_append _ _ (piece_no_amp k v), List.filterMap_cons,
      parse_piece k v]
    have ihr := ih
    rw [parse_qsl] at ihr
    rw [ihr]
    by_cases hv : v = ""
    · simp [hv]
    · simp [hv]

/-- Looking a name up after `insertPair`. -/
theorem qsGet_insertPair (d : List (String × List String)) (n v name : String) :
    qsGet (insertPair d n v) name =
      if n = name then some ((qsGet d name).getD [] ++ [v]) else qsGet d name := by
  induction d with
  | nil => by_cases h : n = name <;> simp [insertPair, qsGet, h]
  | cons kv rest ih =>
    obtain ⟨k, vs⟩ := kv
    by_cases hk : k = n
    · subst hk
      by_cases h : k = name <;> simp [insertPair, qsGet, h]
    · by_cases h : k = name
      · have h2 : ¬n = name := fun hh => hk (h.trans hh.symm)
        have h3 : ¬name = n := fun hh => hk (h.trans hh)
        simp [insertPair, qsGet, hk, h, h2, h3]
      · simp [insertPair, qsGet, hk, h, ih]

/-- The values a grouped-dict lookup returns, as a function of the flat
pair list: all values of that name, in order. -/
theorem qsGet_foldl_insertPair (L : List (String × String))
    (d : List (String × List String)) (name : String) :
    qsGet (L.foldl (fun acc nv => insertPair acc nv.1 nv.2) d) name =
      (match qsGet d name, L.filterMap
          (fun p => if p.1 = name then some p.2 else none) with
        | none, [] => none
        | none, vs => some vs
        | some vs0, vs => some (vs0 ++ vs)) := by
  induction L generalizing d with
  | nil =>
    cases h : qsGet d name <;> simp [h]
  | cons p L ih =>
    obtain ⟨n, v⟩ := p
    rw [List.foldl_cons, ih, qsGet_insertPair, List.filterMap_cons]
    by_cases hn : n = name
    · rw [if_pos hn, if_pos hn]
      cases h : qsGet d name with
      | none =>
        simp only [Option.getD_none, List.nil_append]
        cases h2 : L.filterMap (fun p => if p.1 = name then some p.2 else none) <;> simp
      | some vs0 =>
        simp only [Option.getD_some]
        cases h2 : L.filterMap (fun p => if p.1 = name then some p.2 else none) <;> simp
    · rw [if_neg hn, if_neg hn]

/-- `parse_qs` lookup: exactly the `parse_qsl` values of that name, in
order; `none` exactly when there are none. -/
theorem qsGet_parse_qs (qs : List Char) (name : String) :
    qsGet (parse_qs qs) name =
      (match (parse_qsl qs).filterMap
          (fun p => if p.1 = name then some p.2 else none) with
        | [] => none
        | vs => some vs) := by
  rw [parse_qs, qsGet_foldl_insertPair]
  cases h : (parse_qsl qs).filterMap (fun p => if p.1 = name then some p.2 else none) <;>
    simp [qsGet]

/-! ## Lemmas: urlsplit on the authorization URL -/
theorem stripScheme_auth (q : List Char) :
    stripSchemePair ((AUTH_URL ++ "?").data ++ q) =
      ("https".data, "//login.eveonline.com/v2/oauth/authorize/?".data ++ q) := by
  have hshape : (AUTH_URL ++ "?").data ++ q =
      "https".data ++ ':' :: ("//login.eveonline.com/v2/oauth/authorize/?".data ++ q) := by
    rw [show (AUTH_URL ++ "?").data =
      "https".data ++ ':' :: "//login.eveonline.com/v2/oauth/authorize/?".data from by decide]
    simp
  rw [stripSchemePair, hshape, List.span_eq_take_drop]
  obtain ⟨ht, hd⟩ := takeWhile_append_stop (fun c => c != ':') "https".data
    ("//login.eveonline.com/v2/oauth/authorize/?".data ++ q) ':' (by decide) (by decide)
  rw [ht, hd]
  rfl

theorem splitNetloc_auth (q : List Char) :
    splitNetloc ("login.eveonline.com/v2/oauth/authorize/?".data ++ q) =
      ("login.eveonline.com".data, "/v2/oauth/authorize/?".data ++ q) := by
  have hshape : "login.eveonline.com/v2/oauth/authorize/?".data ++ q =
      "login.eveonline.com".data ++ '/' :: ("v2/oauth/authorize/?".data ++ q) := by
    rw [show "login.eveonline.com/v2/oauth/authorize/?".data =
      "login.eveonline.com".data ++ '/' :: "v2/oauth/authorize/?".data from by decide]
    simp
  rw [splitNetloc, hshape, List.span_eq_take_drop]
  obtain ⟨ht, hd⟩ := takeWhile_append_stop (fun c => c != '/' && c != '?' && c != '#')
    "login.eveonline.com".data ("v2/oauth/authorize/?".data ++ q) '/' (by decide) (by decide)
  rw [ht, hd]
  rfl

theorem span_frag_auth (q : List Char) (hq : ∀ c ∈ q, (c != '#') = true) :
    List.span (fun c => c != '#') ("/v2/oauth/authorize/?".data ++ q) =
      ("/v2/oauth/authorize/?".data ++ q, []) := by
  rw [List.span_eq_take_drop, List.takeWhile_append_of_pos (by decide),
    List.dropWhile_append_of_pos (by decide),
    List.takeWhile_eq_self_iff.mpr hq, List.dropWhile_eq_nil_iff.mpr hq]

theorem span_query_auth (q : List Char) :
    List.span (fun c => c != '?') ("/v2/oauth/authorize/?".data ++ q) =
      ("/v2/oauth/authorize/".data, '?' :: q) := by
  have hshape : "/v2/oauth/authorize/?".data ++ q =
      "/v2/oauth/authorize/".data ++ '?' :: q := by
    rw [show "/v2/oauth/authorize/?".data =
      "/v2/oauth/authorize/".data ++ '?' :: ([] : List Char) from by decide]
    simp
  rw [hshape, List.span_eq_take_drop]
  obtain ⟨ht, hd⟩ := takeWhile_append_stop (fun c => c != '?')
    "/v2/oauth/authorize/".data q '?' (by decide) (by decide)
  rw [ht, hd]

theorem urlsplit_auth_query (q : List Char)
    (hq : ∀ c ∈ q, c ≠ '#' ∧ isUnsafeUrlChar c = false) :
    urlsplit ((AUTH_URL ++ "?").data ++ q) =
      .ok ⟨"https".data, "login.eveonline.com".data, "/v2/oauth/authorize/".data, q, []⟩ := by
  simp only [urlsplit]
  rw [List.dropWhile_append,
    if_neg (show ¬(List.dropWhile (fun c => c.toNat ≤ 32) (AUTH_URL ++ "?").data).isEmpty
        = true from by decide),
    show List.dropWhile (fun c => c.toNat ≤ 32) (AUTH_URL ++ "?").data =
      (AUTH_URL ++ "?").data from by decide]
  rw [List.filter_append,
    show List.filter (fun c => !isUnsafeUrlChar c) (AUTH_URL ++ "?").data =
      (AUTH_URL ++ "?").data from by decide,
    List.filter_eq_self.mpr (fun a ha => by rw [(hq a ha).2]; rfl)]
  rw [stripScheme_auth]
  rw [show (("https".data, "//login.eveonline.com/v2/oauth/authorize/?".data ++ q)
      : List Char × List Char).2 = "//login.eveonline.com/v2/oauth/authorize/?".data ++ q
      from rfl]
  rw [show ("//login.eveonline.com/v2/oauth/authorize/?".data ++ q).take 2 = ['/', '/']
      from rfl, if_pos rfl]
  rw [show ("//login.eveonline.com/v2/oauth/authorize/?".data ++ q).drop 2 =
      "login.eveonline.com/v2/oauth/authorize/?".data ++ q from rfl]
  rw [splitNetloc_auth]
  rw [show (("login.eveonline.com".data, "/v2/oauth/authorize/?".data ++ q)
      : List Char × List Char).1 = "login.eveonline.com".data from rfl,
    show (("login.eveonline.com".data, "/v2/oauth/authorize/?".data ++ q)
      : List Char × List Char).2 = "/v2/oauth/authorize/?".data ++ q from rfl]
  rw [if_neg (show ¬(('[' ∈ "login.eveonline.com".data ∧ ']' ∉ "login.eveonline.com".data) ∨
      (']' ∈ "login.eveonline.com".data ∧ '[' ∉ "login.eveonline.com".data)) from by decide)]
  rw [span_frag_auth q (fun c hc => by
    have := (hq c hc).1
    simp [bne_iff_ne, this])]
  rw [show (("/v2/oauth/authorize/?".data ++ q, ([] : List Char))
      : List Char × List Char).1 = "/v2/oauth/authorize/?".data ++ q from rfl]
  rw [span_query_auth]
  rfl

theorem mem_urlencode (ps : List (String × String)) (c : Char)
    (hc : c ∈ (urlencode ps).data) :
    alwaysSafe c.toNat = true ∨ c = '+' ∨ c = '%' ∨ c = '=' ∨ c = '&' := by
  induction ps using urlencode.induct with
  | case1 =>
    rw [show (urlencode []).data = ([] : List Char) from rfl] at hc
    simp at hc
  | case2 kv =>
    rw [show urlencode [kv] = quote_plus kv.1 ++ "=" ++ quote_plus kv.2 from rfl,
      strData_append, strData_append] at hc
    rcases List.mem_append.mp hc with h | h
    · rcases List.mem_append.mp h with h | h
      · rcases mem_quote_plus _ _ h with h | h | h <;> simp [h]
      · rw [show ("=" : String).data = ['='] from rfl] at h
        simp at h
        simp [h]
    · rcases mem_quote_plus _ _ h with h | h | h <;> simp [h]
  | case3 kv rest0 hne ih =>
    rcases rest0 with _ | ⟨r1, rest⟩
    · exact absurd rfl hne
    rw [show urlencode (kv :: r1 :: rest) =
        quote_plus kv.1 ++ "=" ++ quote_plus kv.2 ++ "&" ++ urlencode (r1 :: rest) from rfl,
      strData_append, strData_append, strData_append, strData_append] at hc
    rcases List.mem_append.mp hc with h | h
    · rcases List.mem_append.mp h with h | h
      · rcases List.mem_append.mp h with h | h
        · rcases List.mem_append.mp h with h | h
          · rcases mem_quote_plus _ _ h with h | h | h <;> simp [h]
          · rw [show ("=" : String).data = ['='] from rfl] at h
            simp at h
            simp [h]
        · rcases mem_quote_plus _ _ h with h | h | h <;> simp [h]
      · rw [show ("&" : String).data = ['&'] from rfl] at h
        simp at h
        simp [h]
    · exact ih h

theorem urlencode_char_ok (ps : List (String × String)) (c : Char)
    (hc : c ∈ (urlencode ps).data) : c ≠ '#' ∧ isUnsafeUrlChar c = false := by
  rcases mem_urlencode ps c hc with h | h | h | h | h
  · constructor
    · intro hh
      subst hh
      rw [show ('#' : Char).toNat = 35 from rfl] at h
      exact absurd h (by decide)
    · have h9 := (alwaysSafe_iff c.toNat).mp h
      unfold isUnsafeUrlChar
      split
      · rename_i hsplit
        exfalso
        rcases hsplit with hh | hh | hh <;> (subst hh; revert h9; decide)
      · rfl
  all_goals subst h
  all_goals exact ⟨by decide, by decide⟩

/-- The query dict of the authorization URL, as `parse_callback_url`
computes it: exactly the `parse_qs` of the encoded parameter list. -/
theorem parse_callback_build_auth (st cid sc cb : String) (vf : List Nat) :
    parse_callback_url (build_auth_url st cid sc cb vf) =
      .ok (parse_qs (urlencode [("response_type", "code"), ("redirect_uri", cb),
        ("client_id", cid), ("scope", sc), ("code_challenge", generate_challenge vf),
        ("code_challenge_method", "S256"), ("state", st)]).data) := by
  unfold parse_callback_url build_auth_url
  rw [show (AUTH_URL ++ "?" ++ urlencode [("response_type", "code"), ("redirect_uri", cb),
        ("client_id", cid), ("scope", sc), ("code_challenge", generate_challenge vf),
        ("code_challenge_method", "S256"), ("state", st)]).data =
      (AUTH_URL ++ "?").data ++ (urlencode [("response_type", "code"), ("redirect_uri", cb),
        ("client_id", cid), ("scope", sc), ("code_challenge", generate_challenge vf),
        ("code_challenge_method", "S256"), ("state", st)]).data from by
    rw [← strData_append]]
  rw [urlsplit_auth_query _ (fun c hc => urlencode_char_ok _ c hc)]

theorem b64Char_bne_61 (n : Nat) : (b64Char n != 61) = true := by
  simp [bne_iff_ne, b64Char_ne_61 n]

theorem b64Alphabet_safe (b : Nat) (h : b64Alphabet b) : alwaysSafe b = true := by
  rw [alwaysSafe_iff]
  unfold b64Alphabet at h
  omega

theorem mem_sha256_lt (msg : List Nat) (b : Nat) (hb : b ∈ sha256 msg) : b < 256 := by
  have h : sha256 msg =
      (let t := (chunk16 (bytesToWords (sha256Pad msg)) []).foldl sha256Block sha256H0
       wordToBytes t.1 ++ wordToBytes t.2.1 ++ wordToBytes t.2.2.1 ++ wordToBytes t.2.2.2.1 ++
         wordToBytes t.2.2.2.2.1 ++ wordToBytes t.2.2.2.2.2.1 ++
         wordToBytes t.2.2.2.2.2.2.1 ++ wordToBytes t.2.2.2.2.2.2.2) := rfl
  rw [h] at hb
  simp only [List.mem_append, wordToBytes, List.mem_cons, List.not_mem_nil, or_false] at hb
  rcases hb with ((((((h | h) | h) | h) | h) | h) | h) | h <;>
    rcases h with h | h | h | h <;> subst h <;> exact Nat.mod_lt _ (by omega)

theorem mem_generate_challenge (v : List Nat) (c : Char)
    (hc : c ∈ (generate_challenge v).data) :
    ∃ b, b64Alphabet b ∧ b ≠ 61 ∧ c = Char.ofNat b ∧ c.toNat = b := by
  obtain ⟨b, hb, hcb⟩ := List.mem_map.mp hc
  obtain ⟨hben, hbne⟩ := List.mem_filter.mp hb
  have hne : b ≠ 61 := by simpa [bne_iff_ne] using hbne
  rcases mem_b64urlEncodeBytes _ _ hben with halpha | h61
  · refine ⟨b, halpha, hne, hcb.symm, ?_⟩
    rw [← hcb]
    exact toNat_ofNat_lt128 b (by unfold b64Alphabet at halpha; omega)
  · exact absurd h61 hne

theorem generate_challenge_ne_empty (v : List Nat) : ¬generate_challenge v = "" := by
  intro h
  obtain ⟨a, b, c, rest, hsha⟩ : ∃ a b c rest, sha256 v = a :: b :: c :: rest :=
    ⟨_, _, _, _, rfl⟩
  have hd : (generate_challenge v).data = [] := congrArg String.data h
  rw [show (generate_challenge v).data =
      ((b64urlEncodeBytes (sha256 v)).filter (fun b => b != 61)).map Char.ofNat from rfl,
    hsha] at hd
  simp only [b64urlEncodeBytes, List.filter_cons, b64Char_bne_61, List.map_cons] at hd
  exact absurd hd (by simp)

theorem rstrip61_cons_ne (a : Nat) (l : List Nat) (h : ¬a = 61) :
    rstrip61 (a :: l) = a :: rstrip61 l := by
  unfold rstrip61
  rw [List.reverse_cons, List.dropWhile_append]
  have ha : ((a :: List.nil).dropWhile fun b => b == 61) = [a] := by
    rw [List.dropWhile_cons]
    simp [h]
  by_cases h0 : (l.reverse.dropWhile fun b => b == 61).isEmpty = true
  · rw [if_pos h0, ha]
    rw [List.isEmpty_iff] at h0
    rw [h0]
    rfl
  · rw [if_neg h0, List.reverse_append]
    rfl

theorem rstrip61_b64 (l : List Nat) :
    rstrip61 (b64urlEncodeBytes l) = (b64urlEncodeBytes l).filter (fun b => b != 61) := by
  induction l using b64urlEncodeBytes.induct with
  | case1 => rfl
  | case2 a =>
    simp only [b64urlEncodeBytes]
    rw [rstrip61_cons_ne _ _ (b64Char_ne_61 _), rstrip61_cons_ne _ _ (b64Char_ne_61 _)]
    rw [show rstrip61 [61, 61] = [] from by decide]
    simp [List.filter_cons, b64Char_bne_61]
  | case3 a b =>
    simp only [b64urlEncodeBytes]
    rw [rstrip61_cons_ne _ _ (b64Char_ne_61 _), rstrip61_cons_ne _ _ (b64Char_ne_61 _),
      rstrip61_cons_ne _ _ (b64Char_ne_61 _)]
    rw [show rstrip61 [61] = [] from by decide]
    simp [List.filter_cons, b64Char_bne_61]
  | case4 a b c rest ih =>
    simp only [b64urlEncodeBytes]
    rw [rstrip61_cons_ne _ _ (b64Char_ne_61 _), rstrip61_cons_ne _ _ (b64Char_ne_61 _),
      rstrip61_cons_ne _ _ (b64Char_ne_61 _), rstrip61_cons_ne _ _ (b64Char_ne_61 _), ih]
    simp [List.filter_cons, b64Char_bne_61]

theorem token_urlsafe_ne_empty (tok : List Nat) (h : ¬tok = []) :
    ¬token_urlsafe tok = "" := by
  intro hh
  obtain ⟨a, rest, ha⟩ : ∃ a rest, tok = a :: rest := by
    cases tok with
    | nil => exact absurd rfl h
    | cons a rest => exact ⟨a, rest, rfl⟩
  have hd : (token_urlsafe tok).data = [] := congrArg String.data hh
  rw [show (token_urlsafe tok).data = (rstrip61 (b64urlEncodeBytes tok)).map Char.ofNat
      from rfl, rstrip61_b64, ha] at hd
  rcases rest with _ | ⟨b, rest2⟩
  · simp only [b64urlEncodeBytes, List.filter_cons, b64Char_bne_61, List.map_cons] at hd
    exact absurd hd (by simp)
  rcases rest2 with _ | ⟨c, rest3⟩
  · simp only [b64urlEncodeBytes, List.filter_cons, b64Char_bne_61, List.map_cons] at hd
    exact absurd hd (by simp)
  · simp only [b64urlEncodeBytes, List.filter_cons, b64Char_bne_61, List.map_cons] at hd
    exact absurd hd (by simp)

/-- With all parameter values non-empty, the authorization URL's query
parses back to exactly the seven parameters, singleton-valued, in
insertion order. -/
theorem parse_qs_build (st cid sc cb : String) (vf : List Nat)
    (hcid : ¬cid = "") (hsc : ¬sc = "") (hcb : ¬cb = "") (hst : ¬st = "") :
    parse_qs (urlencode [("response_type", "code"), ("redirect_uri", cb),
        ("client_id", cid), ("scope", sc), ("code_challenge", generate_challenge vf),
        ("code_challenge_method", "S256"), ("state", st)]).data =
      [("response_type", ["code"]), ("redirect_uri", [cb]), ("client_id", [cid]),
       ("scope", [sc]), ("code_challenge", [generate_challenge vf]),
       ("code_challenge_method", ["S256"]), ("state", [st])] := by
  have h1 : (("code" : String) != "") = true := by decide
  have h2 : ((cb : String) != "") = true := by simp [bne_iff_ne, hcb]
  have h3 : ((cid : String) != "") = true := by simp [bne_iff_ne, hcid]
  have h4 : ((sc : String) != "") = true := by simp [bne_iff_ne, hsc]
  have h5 : ((generate_challenge vf : String) != "") = true := by
    simp [bne_iff_ne, generate_challenge_ne_empty vf]
  have h6 : (("S256" : String) != "") = true := by decide
  have h7 : ((st : String) != "") = true := by simp [bne_iff_ne, hst]
  rw [parse_qs, parse_qsl_urlencode]
  simp only [List.filter_cons]
  rw [if_pos h1, if_pos h2, if_pos h3, if_pos h4, if_pos h5, if_pos h6, if_pos h7,
    List.filter_nil]
  rfl

/-! ## Lemmas: the flow -/
/-- `get_auth_jwt`, evaluated past the parsing and extraction stage. -/
theorem get_auth_jwt_eq (state cid sc cb : String) (vf : List Nat) (callback : String)
    (post : TokenRequest → HttpResponse) (qs : List (String × List String))
    (c s : String) (cs ss : List String)
    (hparse : parse_callback_url callback = .ok qs)
    (hcode : qsGet qs "code" = some (c :: cs))
    (hstate : qsGet qs "state" = some (s :: ss)) :
    get_auth_jwt state cid sc cb vf callback post =
      if ¬s = state then
        ⟨build_auth_url state cid sc cb vf, [], .error .stateMismatch⟩
      else
        if 400 ≤ (post ⟨"authorization_code", cid, c, vf⟩).status ∧
            (post ⟨"authorization_code", cid, c, vf⟩).status < 600 then
          ⟨build_auth_url state cid sc cb vf, [⟨"authorization_code", cid, c, vf⟩],
            .error (.httpError (post ⟨"authorization_code", cid, c, vf⟩).status
              (post ⟨"authorization_code", cid, c, vf⟩).body)⟩
        else
          ⟨build_auth_url state cid sc cb vf, [⟨"authorization_code", cid, c, vf⟩],
            .ok (post ⟨"authorization_code", cid, c, vf⟩).body⟩ := by
  unfold get_auth_jwt
  rw [hparse]
  dsimp only
  rw [hcode]
  dsimp only [subscript0]
  rw [hstate]

/-- `get_auth_jwt` when the callback URL fails to parse. -/
theorem get_auth_jwt_parse_err (state cid sc cb : String) (vf : List Nat) (callback : String)
    (post : TokenRequest → HttpResponse) (e : PyErr)
    (hparse : parse_callback_url callback = .error e) :
    get_auth_jwt state cid sc cb vf callback post =
      ⟨build_auth_url state cid sc cb vf, [], .error e⟩ := by
  unfold get_auth_jwt
  rw [hparse]

/-- `get_auth_jwt` when extracting `code` raises. -/
theorem get_auth_jwt_code_err (state cid sc cb : String) (vf : List Nat) (callback : String)
    (post : TokenRequest → HttpResponse) (qs : List (String × List String)) (e : PyErr)
    (hparse : parse_callback_url callback = .ok qs)
    (he : subscript0 (qsGet qs "code") = .error e) :
    get_auth_jwt state cid sc cb vf callback post =
      ⟨build_auth_url state cid sc cb vf, [], .error e⟩ := by
  unfold get_auth_jwt
  rw [hparse]
  dsimp only
  rw [he]

/-- `get_auth_jwt` when extracting `state` raises. -/
theorem get_auth_jwt_state_err (state cid sc cb : String) (vf : List Nat) (callback : String)
    (post : TokenRequest → HttpResponse) (qs : List (String × List String)) (c : String)
    (e : PyErr) (hparse : parse_callback_url callback = .ok qs)
    (hc : subscript0 (qsGet qs "code") = .ok c)
    (he : subscript0 (qsGet qs "state") = .error e) :
    get_auth_jwt state cid sc cb vf callback post =
      ⟨build_auth_url state cid sc cb vf, [], .error e⟩ := by
  unfold get_auth_jwt
  rw [hparse]
  dsimp only
  rw [hc]
  dsimp only
  rw [he]

theorem subscript0_ok_iff (o : Option (List String)) (c : String) :
    subscript0 o = .ok c ↔ ∃ cs, o = some (c :: cs) := by
  cases o with
  | none => simp [subscript0]
  | some l =>
    cases l with
    | nil => simp [subscript0]
    | cons x xs =>
      simp only [subscript0]
      constructor
      · intro h
        exact ⟨xs, by rw [Except.ok.inj h]⟩
      · intro ⟨cs, h⟩
        obtain ⟨h1, h2⟩ := List.cons.inj (Option.some.inj h)
        rw [h1]

/-! ## The claims -/
/-- C1: a callback whose extracted `state` (first value) differs from the
process's expected Anti-forgery State Token makes `get_auth_jwt` fail
with the state-mismatch error (the spec's `StateMismatchError`, the
source's `ValueError('Did not receive expected state')`), and no POST is
ever sent to the token endpoint (`exchange_code_for_token` is never
invoked). -/
theorem claim_C1 (state client_id scope callback_url : String) (code_verifier : List Nat)
    (callback : String) (post : TokenRequest → HttpResponse)
    (qs : List (String × List String)) (c s : String) (cs ss : List String)
    (hparse : parse_callback_url callback = .ok qs)
    (hcode : qsGet qs "code" = some (c :: cs))
    (hstate : qsGet qs "state" = some (s :: ss))
    (hmismatch : ¬s = state) :
    (get_auth_jwt state client_id scope callback_url code_verifier callback post).result =
        .error .stateMismatch ∧
      (get_auth_jwt state client_id scope callback_url code_verifier callback
        post).requests = [] := by
  rw [get_auth_jwt_eq state client_id scope callback_url code_verifier callback post qs
    c s cs ss hparse hcode hstate, if_pos hmismatch]
  exact ⟨rfl, rfl⟩

theorem claim_C1_witness :
    parse_callback_url "https://localhost/callback/?code=XYZ&state=other" =
        .ok [("code", ["XYZ"]), ("state", ["other"])] ∧
      ("other" : String) ≠ "secret" ∧
      (get_auth_jwt "secret" "cid" "esi-skills.read_skills.v1" "https://localhost/callback/"
          [1, 2, 3] "https://localhost/callback/?code=XYZ&state=other"
          (fun _ => ⟨200, "T"⟩)).result = .error .stateMismatch ∧
      (get_auth_jwt "secret" "cid" "esi-skills.read_skills.v1" "https://localhost/callback/"
          [1, 2, 3] "https://localhost/callback/?code=XYZ&state=other"
          (fun _ => ⟨200, "T"⟩)).requests = [] :=
  ⟨by decide, by decide,
    claim_C1 "secret" "cid" "esi-skills.read_skills.v1" "https://localhost/callback/"
      [1, 2, 3] "https://localhost/callback/?code=XYZ&state=other" (fun _ => ⟨200, "T"⟩)
      [("code", ["XYZ"]), ("state", ["other"])] "XYZ" "other" [] []
      (by decide) (by decide) (by decide) (by decide)⟩

/-- C9: when the flow reaches the token exchange and the endpoint answers
with a 4xx/5xx status, `get_auth_jwt` fails with the token-exchange error
(the spec's `TokenExchangeError`, the source's
`response.raise_for_status()` `HTTPError`) carrying exactly the response
status and body, and no token mapping is returned. -/
theorem claim_C9 (state client_id scope callback_url : String) (code_verifier : List Nat)
    (callback : String) (post : TokenRequest → HttpResponse)
    (qs : List (String × List String)) (c s : String) (cs ss : List String)
    (hparse : parse_callback_url callback = .ok qs)
    (hcode : qsGet qs "code" = some (c :: cs))
    (hstate : qsGet qs "state" = some (s :: ss))
    (hmatch : s = state)
    (hstatus : 400 ≤ (post ⟨"authorization_code", client_id, c, code_verifier⟩).status ∧
      (post ⟨"authorization_code", client_id, c, code_verifier⟩).status < 600) :
    (get_auth_jwt state client_id scope callback_url code_verifier callback post).result =
        .error (.httpError (post ⟨"authorization_code", client_id, c, code_verifier⟩).status
          (post ⟨"authorization_code", client_id, c, code_verifier⟩).body) ∧
      ∀ jwt, (get_auth_jwt state client_id scope callback_url code_verifier callback
        post).result ≠ .ok jwt := by
  rw [get_auth_jwt_eq state client_id scope callback_url code_verifier callback post qs
    c s cs ss hparse hcode hstate, if_neg (fun hh => hh hmatch), if_pos hstatus]
  exact ⟨rfl, fun jwt h => Except.noConfusion h⟩

theorem claim_C9_witness :
    parse_callback_url "https://localhost/callback/?code=XYZ&state=secret" =
        .ok [("code", ["XYZ"]), ("state", ["secret"])] ∧
      (get_auth_jwt "secret" "cid" "esi-skills.read_skills.v1" "https://localhost/callback/"
          [1, 2, 3] "https://localhost/callback/?code=XYZ&state=secret"
          (fun _ => ⟨400, "\x7b\"error\":\"invalid_grant\"\x7d"⟩)).result =
        .error (.httpError 400 "\x7b\"error\":\"invalid_grant\"\x7d") :=
  ⟨by decide,
    (claim_C9 "secret" "cid" "esi-skills.read_skills.v1" "https://localhost/callback/"
      [1, 2, 3] "https://localhost/callback/?code=XYZ&state=secret"
      (fun _ => ⟨400, "\x7b\"error\":\"invalid_grant\"\x7d"⟩)
      [("code", ["XYZ"]), ("state", ["secret"])] "XYZ" "secret" [] []
      (by decide) (by decide) (by decide) rfl (by decide)).1⟩

/-- C10: with `code` or `state` repeated in the callback query, the flow
uses only the first value of each: validation succeeds exactly when the
first `state` value matches (whatever the later values are), and the
`code` sent to the token endpoint is the first `code` value. -/
theorem claim_C10 (state client_id scope callback_url : String) (code_verifier : List Nat)
    (callback : String) (post : TokenRequest → HttpResponse)
    (qs : List (String × List String)) (c s : String) (cs ss : List String)
    (hparse : parse_callback_url callback = .ok qs)
    (hcode : qsGet qs "code" = some (c :: cs))
    (hstate : qsGet qs "state" = some (s :: ss)) :
    ((get_auth_jwt state client_id scope callback_url code_verifier callback post).result =
        .error .stateMismatch ↔ ¬s = state) ∧
      (s = state →
        (get_auth_jwt state client_id scope callback_url code_verifier callback
            post).requests = [⟨"authorization_code", client_id, c, code_verifier⟩]) := by
  rw [get_auth_jwt_eq state client_id scope callback_url code_verifier callback post qs
    c s cs ss hparse hcode hstate]
  by_cases h : s = state
  · rw [if_neg (fun hh => hh h)]
    constructor
    · by_cases hs : 400 ≤ (post ⟨"authorization_code", client_id, c, code_verifier⟩).status ∧
          (post ⟨"authorization_code", client_id, c, code_verifier⟩).status < 600
      · rw [if_pos hs]
        simp [h]
      · rw [if_neg hs]
        simp [h]
    · intro
      by_cases hs : 400 ≤ (post ⟨"authorization_code", client_id, c, code_verifier⟩).status ∧
          (post ⟨"authorization_code", client_id, c, code_verifier⟩).status < 600
      · rw [if_pos hs]
      · rw [if_neg hs]
  · rw [if_pos h]
    exact ⟨by simp [h], fun hh => absurd hh h⟩

theorem claim_C10_witness :
    parse_callback_url "https://localhost/callback/?code=a&code=b&state=secret&state=evil" =
        .ok [("code", ["a", "b"]), ("state", ["secret", "evil"])] ∧
      ((get_auth_jwt "secret" "cid" "sc" "https://localhost/callback/" [1, 2, 3]
          "https://localhost/callback/?code=a&code=b&state=secret&state=evil"
          (fun _ => ⟨200, "T"⟩)).result = .error .stateMismatch ↔ ¬("secret" : String) = "secret") ∧
      (get_auth_jwt "secret" "cid" "sc" "https://localhost/callback/" [1, 2, 3]
          "https://localhost/callback/?code=a&code=b&state=secret&state=evil"
          (fun _ => ⟨200, "T"⟩)).requests = [⟨"authorization_code", "cid", "a", [1, 2, 3]⟩] := by
  refine ⟨by decide, ?_⟩
  have h := claim_C10 "secret" "cid" "sc" "https://localhost/callback/" [1, 2, 3]
    "https://localhost/callback/?code=a&code=b&state=secret&state=evil" (fun _ => ⟨200, "T"⟩)
    [("code", ["a", "b"]), ("state", ["secret", "evil"])] "a" "secret" ["b"] ["evil"]
    (by decide) (by decide) (by decide)
  exact ⟨h.1, h.2 rfl⟩

/-- C5: every POST body the flow actually sends to the token endpoint is
the form dict with exactly `grant_type="authorization_code"`, the
caller's `client_id`, the first `code` value extracted from the callback,
and `code_verifier` equal to the raw, unhashed verifier of this run (the
bytes whose challenge went into the authorization URL) — not the
challenge. -/
theorem claim_C5 (state client_id scope callback_url : String) (code_verifier : List Nat)
    (callback : String) (post : TokenRequest → HttpResponse) (req : TokenRequest)
    (hmem : req ∈ (get_auth_jwt state client_id scope callback_url code_verifier callback
      post).requests) :
    req.grant_type = "authorization_code" ∧ req.client_id = client_id ∧
      req.code_verifier = code_verifier ∧
      ∃ qs cs, parse_callback_url callback = .ok qs ∧
        qsGet qs "code" = some (req.code :: cs) := by
  cases hp : parse_callback_url callback with
  | error e =>
    rw [get_auth_jwt_parse_err state client_id scope callback_url code_verifier callback
      post e hp] at hmem
    simp at hmem
  | ok qs =>
    cases hc : subscript0 (qsGet qs "code") with
    | error e =>
      rw [get_auth_jwt_code_err state client_id scope callback_url code_verifier callback
        post qs e hp hc] at hmem
      simp at hmem
    | ok c =>
      obtain ⟨cs, hc2⟩ := (subscript0_ok_iff _ _).mp hc
      cases hs : subscript0 (qsGet qs "state") with
      | error e =>
        rw [get_auth_jwt_state_err state client_id scope callback_url code_verifier
          callback post qs c e hp hc hs] at hmem
        simp at hmem
      | ok s =>
        obtain ⟨ss, hs2⟩ := (subscript0_ok_iff _ _).mp hs
        rw [get_auth_jwt_eq state client_id scope callback_url code_verifier callback
          post qs c s cs ss hp hc2 hs2] at hmem
        by_cases hmatch : ¬s = state
        · rw [if_pos hmatch] at hmem
          simp at hmem
        · rw [if_neg hmatch] at hmem
          have hreq : req = ⟨"authorization_code", client_id, c, code_verifier⟩ := by
            by_cases hst : 400 ≤ (post ⟨"authorization_code", client_id, c,
                code_verifier⟩).status ∧
                (post ⟨"authorization_code", client_id, c, code_verifier⟩).status < 600
            · rw [if_pos hst] at hmem
              simpa using hmem
            · rw [if_neg hst] at hmem
              simpa using hmem
          subst hreq
          exact ⟨rfl, rfl, rfl, qs, cs, rfl, hc2⟩

theorem claim_C5_witness :
    parse_callback_url "https://localhost/callback/?code=XYZ&state=secret" =
        .ok [("code", ["XYZ"]), ("state", ["secret"])] ∧
      (⟨"authorization_code", "cid", "XYZ", [1, 2, 3]⟩ : TokenRequest) ∈
        (get_auth_jwt "secret" "cid" "sc" "https://localhost/callback/" [1, 2, 3]
          "https://localhost/callback/?code=XYZ&state=secret"
          (fun _ => ⟨200, "T"⟩)).requests ∧
      (⟨"authorization_code", "cid", "XYZ", [1, 2, 3]⟩ : TokenRequest).code_verifier =
        [1, 2, 3] := by
  refine ⟨by decide, by decide, ?_⟩
  exact (claim_C5 "secret" "cid" "sc" "https://localhost/callback/" [1, 2, 3]
    "https://localhost/callback/?code=XYZ&state=secret" (fun _ => ⟨200, "T"⟩)
    ⟨"authorization_code", "cid", "XYZ", [1, 2, 3]⟩ (by decide)).2.2.1

theorem urlsplit_error_shape (l : List Char) (e : PyErr) (h : urlsplit l = .error e) :
    e = .invalidIPv6Url := by
  simp only [urlsplit] at h
  split at h <;> split at h <;>
    first
      | exact (Except.error.inj h).symm
      | exact absurd h (fun hh => Except.noConfusion hh)

theorem parse_err_shape (u : String) (e : PyErr) (h : parse_callback_url u = .error e) :
    e = .invalidIPv6Url := by
  unfold parse_callback_url at h
  cases hu : urlsplit u.data with
  | error e2 =>
    rw [hu] at h
    exact (Except.error.inj h) ▸ urlsplit_error_shape u.data e2 hu
  | ok parts =>
    rw [hu] at h
    exact absurd h (fun hh => Except.noConfusion hh)

theorem parse_ok_shape (u : String) (qs : List (String × List String))
    (h : parse_callback_url u = .ok qs) : ∃ q, qs = parse_qs q := by
  unfold parse_callback_url at h
  cases hu : urlsplit u.data with
  | error e =>
    rw [hu] at h
    exact absurd h (fun hh => Except.noConfusion hh)
  | ok parts =>
    rw [hu] at h
    exact ⟨parts.query, (Except.ok.inj h).symm⟩

theorem qsGet_parse_qs_ne_nil (q : List Char) (name : String) (l : List String)
    (h : qsGet (parse_qs q) name = some l) : l ≠ [] := by
  rw [qsGet_parse_qs] at h
  cases h2 : (parse_qsl q).filterMap (fun p => if p.1 = name then some p.2 else none) with
  | nil =>
    rw [h2] at h
    simp at h
  | cons x xs =>
    rw [h2] at h
    simp at h
    rw [← h]
    simp

/-- C8: an unparseable callback URL (the `ValueError` CPython's `urlsplit`
raises), or a parsed callback whose query lacks `code` or `state`, makes
the flow fail — with the URL-parse error in the first case and with the
`TypeError` from subscripting `None` in the second (together the spec's
`MalformedCallbackError` cases) — and the token exchange is never
reached. -/
theorem claim_C8 (state client_id scope callback_url : String) (code_verifier : List Nat)
    (callback : String) (post : TokenRequest → HttpResponse) :
    (∀ e, parse_callback_url callback = .error e →
      e = .invalidIPv6Url ∧
        (get_auth_jwt state client_id scope callback_url code_verifier callback
          post).result = .error e ∧
        (get_auth_jwt state client_id scope callback_url code_verifier callback
          post).requests = []) ∧
      (∀ qs, parse_callback_url callback = .ok qs →
        qsGet qs "code" = none ∨ qsGet qs "state" = none →
        (get_auth_jwt state client_id scope callback_url code_verifier callback
            post).result = .error .noneSubscript ∧
          (get_auth_jwt state client_id scope callback_url code_verifier callback
            post).requests = []) := by
  constructor
  · intro e he
    rw [get_auth_jwt_parse_err state client_id scope callback_url code_verifier callback
      post e he]
    exact ⟨parse_err_shape callback e he, rfl, rfl⟩
  · intro qs hok hmiss
    have hcode_err : qsGet qs "code" = none →
        (get_auth_jwt state client_id scope callback_url code_verifier callback
            post).result = .error .noneSubscript ∧
          (get_auth_jwt state client_id scope callback_url code_verifier callback
            post).requests = [] := by
      intro hm
      rw [get_auth_jwt_code_err state client_id scope callback_url code_verifier callback
        post qs .noneSubscript hok (by rw [hm]; rfl)]
      exact ⟨rfl, rfl⟩
    rcases hmiss with hm | hm
    · exact hcode_err hm
    · cases hc : qsGet qs "code" with
      | none => exact hcode_err hc
      | some l =>
        obtain ⟨q, hq⟩ := parse_ok_shape callback qs hok
        have hlne : l ≠ [] := qsGet_parse_qs_ne_nil q "code" l (by rw [← hq]; exact hc)
        obtain ⟨c, cs, hl⟩ : ∃ c cs, l = c :: cs := by
          cases l with
          | nil => exact absurd rfl hlne
          | cons c cs => exact ⟨c, cs, rfl⟩
        rw [get_auth_jwt_state_err state client_id scope callback_url code_verifier
          callback post qs c .noneSubscript hok (by rw [hc, hl]; rfl) (by rw [hm]; rfl)]
        exact ⟨rfl, rfl⟩

theorem claim_C8_witness :
    parse_callback_url "https://localhost/callback/?state=onlystate" =
        .ok [("state", ["onlystate"])] ∧
      qsGet [("state", ["onlystate"])] "code" = none ∧
      (get_auth_jwt "secret" "cid" "sc" "https://localhost/callback/" [1, 2, 3]
          "https://localhost/callback/?state=onlystate" (fun _ => ⟨200, "T"⟩)).result =
        .error .noneSubscript ∧
      (get_auth_jwt "secret" "cid" "sc" "https://localhost/callback/" [1, 2, 3]
          "https://localhost/callback/?state=onlystate" (fun _ => ⟨200, "T"⟩)).requests =
        [] := by
  refine ⟨by decide, by decide, ?_⟩
  exact (claim_C8 "secret" "cid" "sc" "https://localhost/callback/" [1, 2, 3]
    "https://localhost/callback/?state=onlystate" (fun _ => ⟨200, "T"⟩)).2
    [("state", ["onlystate"])] (by decide) (.inl (by decide))

/-- The challenge as the spec words it: SHA-256 over the verifier's raw
bytes (the encoded/transmitted form, not re-decoded), then URL-safe
base64 encode, then strip all `=` padding characters. -/
def derive_challenge_spec (verifier : List Nat) : String :=
  String.mk (((b64urlEncodeBytes (sha256 verifier)).filter (fun b => b != 61)).map Char.ofNat)

/-- C2: `generate_challenge` computes exactly the spec's composition
(SHA-256 of the transmitted verifier bytes, URL-safe base64, `=`
stripped), is deterministic, and its output contains no `=`, `+` or `/`
characters. -/
theorem claim_C2 (v w : List Nat) :
    generate_challenge v = derive_challenge_spec v ∧
      (v = w → generate_challenge v = generate_challenge w) ∧
      ∀ c ∈ (generate_challenge v).data, c ≠ '=' ∧ c ≠ '+' ∧ c ≠ '/' := by
  refine ⟨rfl, fun h => by rw [h], ?_⟩
  intro c hc
  obtain ⟨b, halpha, hne61, hcb, htn⟩ := mem_generate_challenge v c hc
  unfold b64Alphabet at halpha
  refine ⟨?_, ?_, ?_⟩ <;> intro hh <;> subst hh
  · rw [show ('=' : Char).toNat = 61 from rfl] at htn
    omega
  · rw [show ('+' : Char).toNat = 43 from rfl] at htn
    omega
  · rw [show ('/' : Char).toNat = 47 from rfl] at htn
    omega

theorem claim_C2_witness :
    generate_challenge [1, 2, 3] = derive_challenge_spec [1, 2, 3] ∧
      generate_challenge [1, 2, 3] = generate_challenge [1, 2, 3] ∧
      ∀ c ∈ (generate_challenge [1, 2, 3]).data, c ≠ '=' ∧ c ≠ '+' ∧ c ≠ '/' :=
  ⟨(claim_C2 [1, 2, 3] [1, 2, 3]).1, (claim_C2 [1, 2, 3] [1, 2, 3]).2.1 rfl,
    (claim_C2 [1, 2, 3] [1, 2, 3]).2.2⟩

/-- C3: `generate_byte_string` returns the URL-safe base64 encoding of
the requested number of random bytes with padding preserved (its length
is a multiple of 4, padding included), and base64-decoding it returns
exactly the original `length_bytes` bytes. -/
theorem claim_C3 (length : Nat) (token : List Nat)
    (hlen : token.length = length) (hbytes : ∀ b ∈ token, b < 256) :
    b64urlDecodeBytes (generate_byte_string token) = some token ∧
      (∀ l, b64urlDecodeBytes (generate_byte_string token) = some l → l.length = length) ∧
      (generate_byte_string token).length % 4 = 0 := by
  refine ⟨b64urlDecode_encode token hbytes, ?_, length_b64urlEncodeBytes_mod token⟩
  intro l hl
  rw [show generate_byte_string token = b64urlEncodeBytes token from rfl,
    b64urlDecode_encode token hbytes] at hl
  rw [← Option.some.inj hl, hlen]

theorem claim_C3_witness :
    (List.range 32).length = 32 ∧
      b64urlDecodeBytes (generate_byte_string (List.range 32)) = some (List.range 32) ∧
      (generate_byte_string (List.range 32)).length % 4 = 0 :=
  ⟨by decide,
    (claim_C3 32 (List.range 32) (by decide) (by decide)).1,
    (claim_C3 32 (List.range 32) (by decide) (by decide)).2.2⟩

/-- C4 (amended): provided `client_id`, `scope`, `redirect_uri` and the
state value are non-empty, query-parsing the URL built by
`build_auth_url` round-trips to exactly the inputs: all seven parameters
present and singleton-valued, `code_challenge` equal to the derived
challenge, `code_challenge_method = "S256"` and `response_type = "code"`
(the values having been percent-encoded and decoded exactly). -/
theorem claim_C4_amended (state client_id scope callback_url : String)
    (code_verifier : List Nat) (hcid : ¬client_id = "") (hsc : ¬scope = "")
    (hcb : ¬callback_url = "") (hst : ¬state = "") :
    parse_callback_url (build_auth_url state client_id scope callback_url code_verifier) =
      .ok [("response_type", ["code"]), ("redirect_uri", [callback_url]),
        ("client_id", [client_id]), ("scope", [scope]),
        ("code_challenge", [generate_challenge code_verifier]),
        ("code_challenge_method", ["S256"]), ("state", [state])] := by
  rw [parse_callback_build_auth,
    parse_qs_build state client_id scope callback_url code_verifier hcid hsc hcb hst]

/-- C4, as stated, is false: with an empty `client_id` the
`client_id=` piece is dropped by `parse_qs` (CPython default
`keep_blank_values=False`), so the parsed query does not round-trip —
the `client_id` parameter is absent rather than mapped to the empty
string. -/
theorem claim_C4_counterexample :
    parse_callback_url (build_auth_url "secret" "" "scope1"
        "https://localhost/callback/" []) =
      .ok [("response_type", ["code"]), ("redirect_uri", ["https://localhost/callback/"]),
        ("scope", ["scope1"]), ("code_challenge", [generate_challenge []]),
        ("code_challenge_method", ["S256"]), ("state", ["secret"])] ∧
      qsGet [("response_type", ["code"]), ("redirect_uri", ["https://localhost/callback/"]),
        ("scope", ["scope1"]), ("code_challenge", [generate_challenge []]),
        ("code_challenge_method", ["S256"]), ("state", ["secret"])] "client_id" = none := by
  constructor
  · rw [parse_callback_build_auth, parse_qs, parse_qsl_urlencode]
    simp only [List.filter_cons]
    rw [if_pos (by decide : (("code" : String) != "") = true),
      if_pos (by decide : (("https://localhost/callback/" : String) != "") = true),
      if_neg (by decide : ¬(("" : String) != "") = true),
      if_pos (by decide : (("scope1" : String) != "") = true),
      if_pos (by simp [bne_iff_ne, generate_challenge_ne_empty]
        : ((generate_challenge [] : String) != "") = true),
      if_pos (by decide : (("S256" : String) != "") = true),
      if_pos (by decide : (("secret" : String) != "") = true), List.filter_nil]
    rfl
  · rfl

theorem claim_C4_witness :
    ¬("cid" : String) = "" ∧ ¬("esi-skills.read_skills.v1 publicData" : String) = "" ∧
      ¬("https://localhost/callback/" : String) = "" ∧ ¬("secret" : String) = "" ∧
      parse_callback_url (build_auth_url "secret" "cid"
          "esi-skills.read_skills.v1 publicData" "https://localhost/callback/" [1, 2, 3]) =
        .ok [("response_type", ["code"]), ("redirect_uri", ["https://localhost/callback/"]),
          ("client_id", ["cid"]), ("scope", ["esi-skills.read_skills.v1 publicData"]),
          ("code_challenge", [generate_challenge [1, 2, 3]]),
          ("code_challenge_method", ["S256"]), ("state", ["secret"])] :=
  ⟨by decide, by decide, by decide, by decide,
    claim_C4_amended "secret" "cid" "esi-skills.read_skills.v1 publicData"
      "https://localhost/callback/" [1, 2, 3] (by decide) (by decide) (by decide) (by decide)⟩

theorem filterMap_sel_filter (L : List (String × String)) (name : String) :
    (L.filter (fun p => p.2 != "")).filterMap
        (fun p => if p.1 = name then some p.2 else none) =
      L.filterMap (fun p => if p.1 = name ∧ p.2 ≠ "" then some p.2 else none) := by
  induction L with
  | nil => rfl
  | cons p L ih =>
    obtain ⟨k, v⟩ := p
    by_cases hk : k = name <;> by_cases hv : v = "" <;>
      simp [List.filter_cons, List.filterMap_cons, bne_iff_ne, hk, hv, ih]

theorem qsGet_state_build (st cid sc cb : String) (vf : List Nat) (hst : ¬st = "") :
    qsGet (parse_qs (urlencode [("response_type", "code"), ("redirect_uri", cb),
        ("client_id", cid), ("scope", sc), ("code_challenge", generate_challenge vf),
        ("code_challenge_method", "S256"), ("state", st)]).data) "state" = some [st] := by
  rw [qsGet_parse_qs, parse_qsl_urlencode, filterMap_sel_filter]
  simp only [List.filterMap_cons, List.filterMap_nil]
  rw [if_neg (fun h => absurd h.1 (by decide)), if_neg (fun h => absurd h.1 (by decide)),
    if_neg (fun h => absurd h.1 (by decide)), if_neg (fun h => absurd h.1 (by decide)),
    if_neg (fun h => absurd h.1 (by decide)), if_neg (fun h => absurd h.1 (by decide)),
    if_pos ⟨trivial, hst⟩]

/-- The authorization URL `get_auth_jwt` displays or opens, on every
path. -/
theorem get_auth_jwt_authUrl (state cid sc cb : String) (vf : List Nat) (callback : String)
    (post : TokenRequest → HttpResponse) :
    (get_auth_jwt state cid sc cb vf callback post).authUrl =
      build_auth_url state cid sc cb vf := by
  unfold get_auth_jwt
  cases parse_callback_url callback with
  | error e => rfl
  | ok qs =>
    dsimp only
    cases subscript0 (qsGet qs "code") with
    | error e => rfl
    | ok c =>
      dsimp only
      cases subscript0 (qsGet qs "state") with
      | error e => rfl
      | ok s =>
        dsimp only
        split
        · rfl
        · split <;> rfl

/-- The state-mismatch outcome is decided by comparing the first
extracted `state` value with the module `STATE`, and nothing else. -/
theorem get_auth_jwt_mismatch_iff (state cid sc cb : String) (vf : List Nat)
    (callback : String) (post : TokenRequest → HttpResponse)
    (qs : List (String × List String)) (c s : String) (cs ss : List String)
    (hparse : parse_callback_url callback = .ok qs)
    (hcode : qsGet qs "code" = some (c :: cs))
    (hstate : qsGet qs "state" = some (s :: ss)) :
    (get_auth_jwt state cid sc cb vf callback post).result = .error .stateMismatch ↔
      ¬s = state := by
  rw [get_auth_jwt_eq state cid sc cb vf callback post qs c s cs ss hparse hcode hstate]
  by_cases h : s = state
  · rw [if_neg (fun hh => hh h)]
    by_cases hs : 400 ≤ (post ⟨"authorization_code", cid, c, vf⟩).status ∧
        (post ⟨"authorization_code", cid, c, vf⟩).status < 600
    · rw [if_pos hs]
      simp [h]
    · rw [if_neg hs]
      simp [h]
  · rw [if_pos h]
    simp [h]

/-- C6: the Anti-forgery State Token is one module-level value (`STATE`,
drawn from 32 random bytes once at module load and never reassigned; in
the embedding every reader receives the same `STATE entropy`): the state
parameter embedded in the authorization URL of an attempt is exactly that
value, and the callback validation in the same attempt compares the
callback's first `state` value against that same value. -/
theorem claim_C6 (entropy : List Nat) (client_id scope callback_url : String)
    (code_verifier : List Nat) (callback : String) (post : TokenRequest → HttpResponse)
    (qs : List (String × List String)) (c s : String) (cs ss : List String)
    (hlen : entropy.length = 32)
    (hparse : parse_callback_url callback = .ok qs)
    (hcode : qsGet qs "code" = some (c :: cs))
    (hstate : qsGet qs "state" = some (s :: ss)) :
    (∃ pqs, parse_callback_url
        (get_auth_jwt (STATE entropy) client_id scope callback_url code_verifier callback
          post).authUrl = .ok pqs ∧
      qsGet pqs "state" = some [STATE entropy]) ∧
      ((get_auth_jwt (STATE entropy) client_id scope callback_url code_verifier callback
          post).result = .error .stateMismatch ↔ ¬s = STATE entropy) := by
  have hne : ¬STATE entropy = "" :=
    token_urlsafe_ne_empty entropy (fun h => by rw [h] at hlen; simp at hlen)
  constructor
  · refine ⟨_, ?_, qsGet_state_build (STATE entropy) client_id scope callback_url
      code_verifier hne⟩
    rw [get_auth_jwt_authUrl]
    exact parse_callback_build_auth (STATE entropy) client_id scope callback_url code_verifier
  · exact get_auth_jwt_mismatch_iff (STATE entropy) client_id scope callback_url
      code_verifier callback post qs c s cs ss hparse hcode hstate

theorem claim_C6_witness :
    (List.range 32).length = 32 ∧
      parse_callback_url "https://localhost/callback/?code=a&state=x" =
        .ok [("code", ["a"]), ("state", ["x"])] ∧
      ((∃ pqs, parse_callback_url
          (get_auth_jwt (STATE (List.range 32)) "cid" "sc" "https://localhost/callback/"
            [1, 2, 3] "https://localhost/callback/?code=a&state=x"
            (fun _ => ⟨200, "T"⟩)).authUrl = .ok pqs ∧
        qsGet pqs "state" = some [STATE (List.range 32)]) ∧
        ((get_auth_jwt (STATE (List.range 32)) "cid" "sc" "https://localhost/callback/"
            [1, 2, 3] "https://localhost/callback/?code=a&state=x"
            (fun _ => ⟨200, "T"⟩)).result = .error .stateMismatch ↔
          ¬("x" : String) = STATE (List.range 32))) :=
  ⟨by decide, by decide,
    claim_C6 (List.range 32) "cid" "sc" "https://localhost/callback/" [1, 2, 3]
      "https://localhost/callback/?code=a&state=x" (fun _ => ⟨200, "T"⟩)
      [("code", ["a"]), ("state", ["x"])] "a" "x" [] []
      (by decide) (by decide) (by decide) (by decide)⟩

/-- C7 (amended): `parse_callback` maps each parameter name to the list
of all its non-blank `name=value` values in order — the grouping into the
dict drops none of the `parse_qsl` pairs — and the claim's two concrete
examples hold.  What fails in the original claim is only that occurrences
with a blank value (`code=`) are dropped by CPython `parse_qs` before
grouping. -/
theorem claim_C7_amended :
    (∀ q name, qsGet (parse_qs q) name =
      (match (parse_qsl q).filterMap
          (fun p => if p.1 = name then some p.2 else none) with
        | [] => none
        | vs => some vs)) ∧
      parse_callback_url "https://x/cb?code=a&code=b" = .ok [("code", ["a", "b"])] ∧
      parse_callback_url "https://x/cb?code=abc&state=secret" =
        .ok [("code", ["abc"]), ("state", ["secret"])] ∧
      parse_callback_url "https://x/cb?code=a&code=&code=b" = .ok [("code", ["a", "b"])] :=
  ⟨qsGet_parse_qs, by decide, by decide, by decide⟩

/-- C7, as stated, is false: a repeated parameter with one blank
occurrence loses that occurrence — `?code=a&code=&code=b` parses to
`["a", "b"]`, not to all three values `["a", "", "b"]`. -/
theorem claim_C7_counterexample :
    parse_callback_url "https://x/cb?code=a&code=&code=b" = .ok [("code", ["a", "b"])] ∧
      (["a", "b"] : List String) ≠ ["a", "", "b"] :=
  ⟨by decide, by decide⟩

end Evesso
